import Mathlib

/-!
Verification of the EMMAA query store and delta engine.

This file gives a shallow embedding, in Lean 4, of the query-identity
hasher, query registry, result ledger, latest/previous resolver, delta
classifier, model-manager cache and result formatter of the EMMAA
repository (files src/emmaa/db/manager.py and src/emmaa/answer_queries.py),
and proves or refutes the stated properties of those components.

Python values are modelled as follows: JSON-like values by the inductive
type JsonValue (a float is carried together with its default decimal
string, which is all the source ever uses of it); dictionaries by
association lists in insertion order; Python `sorted` by a stable
insertion sort; fallible code by Except String; database tables by lists
of rows; machine integers by Nat with explicit reduction modulo 2^32.
-/

/-- A JSON-like Python value as handled by `sorted_json_string` in
src/emmaa/db/manager.py: strings, floats (carried with their default
decimal representation, i.e. the value of Python `str(f)`), ints, bools,
None, lists and string-keyed dicts in insertion order. -/
inductive JsonValue where
  | str (s : String)
  | float (s : String)
  | int (n : Int)
  | bool (b : Bool)
  | null
  | list (l : List JsonValue)
  | dict (d : List (String × JsonValue))

mutual

/-- Boolean structural equality on JsonValue (Python `==` on json data). -/
def jvBEq : JsonValue → JsonValue → Bool
  | .str a, .str b => a == b
  | .float a, .float b => a == b
  | .int a, .int b => a == b
  | .bool a, .bool b => a == b
  | .null, .null => true
  | .list a, .list b => jvBEqList a b
  | .dict a, .dict b => jvBEqDict a b
  | _, _ => false
termination_by structural a => a

/-- Pointwise jvBEq on lists of values. -/
def jvBEqList : List JsonValue → List JsonValue → Bool
  | [], [] => true
  | x :: xs, y :: ys => jvBEq x y && jvBEqList xs ys
  | _, _ => false
termination_by structural a => a

/-- Pointwise jvBEq on dict entry lists. -/
def jvBEqDict : List (String × JsonValue) → List (String × JsonValue) → Bool
  | [], [] => true
  | x :: xs, y :: ys => x.1 == y.1 && jvBEq x.2 y.2 && jvBEqDict xs ys
  | _, _ => false
termination_by structural a => a

end

mutual

theorem jvBEq_iff : ∀ a b, jvBEq a b = true ↔ a = b
  | .str a, b => by cases b <;> simp [jvBEq]
  | .float a, b => by cases b <;> simp [jvBEq]
  | .int a, b => by cases b <;> simp [jvBEq]
  | .bool a, b => by cases b <;> simp [jvBEq]
  | .null, b => by cases b <;> simp [jvBEq]
  | .list a, b => by cases b <;> simp [jvBEq, jvBEqList_iff a]
  | .dict a, b => by cases b <;> simp [jvBEq, jvBEqDict_iff a]
termination_by structural a => a

theorem jvBEqList_iff : ∀ a b, jvBEqList a b = true ↔ a = b
  | [], b => by cases b <;> simp [jvBEqList]
  | x :: xs, b => by
      cases b with
      | nil => simp [jvBEqList]
      | cons y ys => simp [jvBEqList, jvBEq_iff x, jvBEqList_iff xs]
termination_by structural a => a

theorem jvBEqDict_iff : ∀ a b, jvBEqDict a b = true ↔ a = b
  | [], b => by cases b <;> simp [jvBEqDict]
  | (k, v) :: xs, b => by
      cases b with
      | nil => simp [jvBEqDict]
      | cons y ys =>
          obtain ⟨k2, v2⟩ := y
          simp [jvBEqDict, jvBEq_iff v, jvBEqDict_iff xs, Prod.ext_iff]
termination_by structural a => a

end

instance : DecidableEq JsonValue := fun a b => decidable_of_iff _ (jvBEq_iff a b)

instance exceptDecEq {ε α : Type} [DecidableEq ε] [DecidableEq α] :
    DecidableEq (Except ε α)
  | .ok a, .ok b =>
      if h : a = b then .isTrue (by rw [h]) else .isFalse (by simp [h])
  | .error a, .error b =>
      if h : a = b then .isTrue (by rw [h]) else .isFalse (by simp [h])
  | .ok _, .error _ => .isFalse (fun h => Except.noConfusion h)
  | .error _, .ok _ => .isFalse (fun h => Except.noConfusion h)

/-- Lexicographic code-point comparison of char lists: the order Python
uses to compare strings. -/
def charListLt : List Char → List Char → Bool
  | [], [] => false
  | [], _ :: _ => true
  | _ :: _, [] => false
  | a :: as, b :: bs =>
      if a.toNat < b.toNat then true
      else if b.toNat < a.toNat then false
      else charListLt as bs

/-- Python string less-or-equal: not strictly greater. -/
def pyStrLe (a b : String) : Bool := !(charListLt b.data a.data)

/-- pyStrLe as a decidable relation, for use with List.insertionSort. -/
def pyStrLeRel (a b : String) : Prop := pyStrLe a b = true

instance : DecidableRel pyStrLeRel := fun a b => instDecidableEqBool (pyStrLe a b) true

theorem charListLt_asymm :
    ∀ a b, charListLt a b = true → charListLt b a = false := by
  intro a
  induction a with
  | nil => intro b _; cases b <;> simp [charListLt]
  | cons x xs ih =>
      intro b hab
      cases b with
      | nil => simp [charListLt] at hab
      | cons y ys =>
          simp only [charListLt] at hab ⊢
          by_cases h1 : x.toNat < y.toNat
          · simp only [h1, if_true]
            have : ¬ y.toNat < x.toNat := by omega
            simp [this, h1]
          · by_cases h2 : y.toNat < x.toNat
            · simp [h1, h2] at hab
            · simp only [h1, h2, if_false] at hab ⊢
              simp [ih ys hab]

theorem charListLt_conn :
    ∀ a b, charListLt a b = false → charListLt b a = false → a = b := by
  intro a
  induction a with
  | nil => intro b h1 _; cases b <;> simp [charListLt] at h1 ⊢
  | cons x xs ih =>
      intro b h1 h2
      cases b with
      | nil => simp [charListLt] at h2
      | cons y ys =>
          simp only [charListLt] at h1 h2
          by_cases hxy : x.toNat < y.toNat
          · simp [hxy] at h1
          · by_cases hyx : y.toNat < x.toNat
            · simp [hyx, hxy] at h2
            · simp only [hxy, hyx, if_false] at h1 h2
              have hx : x = y := by
                have hn : x.toNat = y.toNat := by omega
                exact Char.ext (UInt32.ext hn)
              rw [hx, ih ys h1 h2]

theorem charListLt_trans :
    ∀ a b c, charListLt a b = true → charListLt b c = true →
      charListLt a c = true := by
  intro a
  induction a with
  | nil =>
      intro b c hab hbc
      cases b with
      | nil => simp [charListLt] at hab
      | cons y ys =>
          cases c with
          | nil => simp [charListLt] at hbc
          | cons z zs => simp [charListLt]
  | cons x xs ih =>
      intro b c hab hbc
      cases b with
      | nil => simp [charListLt] at hab
      | cons y ys =>
          cases c with
          | nil => simp [charListLt] at hbc
          | cons z zs =>
              simp only [charListLt] at hab hbc ⊢
              by_cases hxy : x.toNat < y.toNat
              · by_cases hyz : y.toNat < z.toNat
                · have : x.toNat < z.toNat := by omega
                  simp [this]
                · by_cases hzy : z.toNat < y.toNat
                  · simp [hyz, hzy] at hbc
                  · have : x.toNat < z.toNat := by omega
                    simp [this]
              · by_cases hyx : y.toNat < x.toNat
                · simp [hxy, hyx] at hab
                · have hx : x.toNat = y.toNat := by omega
                  simp only [hxy, hyx, if_false] at hab
                  by_cases hyz : y.toNat < z.toNat
                  · have : x.toNat < z.toNat := by omega
                    simp [this]
                  · by_cases hzy : z.toNat < y.toNat
                    · simp [hyz, hzy] at hbc
                    · simp only [hyz, hzy, if_false] at hbc
                      have h1 : ¬ x.toNat < z.toNat := by omega
                      have h2 : ¬ z.toNat < x.toNat := by omega
                      simp only [h1, h2, if_false]
                      exact ih ys zs hab hbc

instance pyStrLeRelTotal : IsTotal String pyStrLeRel := by
  constructor
  intro a b
  simp only [pyStrLeRel, pyStrLe, Bool.not_eq_true']
  by_cases h : charListLt b.data a.data = true
  · right
    simp [charListLt_asymm _ _ h]
  · left
    simpa using h

instance pyStrLeRelTrans : IsTrans String pyStrLeRel := by
  constructor
  intro a b c hab hbc
  simp only [pyStrLeRel, pyStrLe, Bool.not_eq_true'] at hab hbc ⊢
  by_cases hca : charListLt c.data a.data = true
  · by_cases hbc2 : charListLt b.data c.data = true
    · rw [charListLt_trans _ _ _ hbc2 hca] at hab
      exact absurd hab (by simp)
    · have : b.data = c.data := charListLt_conn _ _ (by simpa using hbc2) hbc
      rw [← this] at hca
      rw [hca] at hab
      exact absurd hab (by simp)
  · simpa using hca

instance pyStrLeRelAntisymm : IsAntisymm String pyStrLeRel := by
  constructor
  intro a b hab hba
  simp only [pyStrLeRel, pyStrLe, Bool.not_eq_true'] at hab hba
  have hd : a.data = b.data := charListLt_conn _ _ hba hab
  cases a; cases b
  simp only at hd
  rw [hd]

/-- Python `sorted` on a list of strings: the unique permutation sorted
by code-point order. -/
def pySortedStrings (l : List String) : List String :=
  List.insertionSort pyStrLeRel l

theorem pySortedStrings_eq_of_perm {l1 l2 : List String} (h : l1.Perm l2) :
    pySortedStrings l1 = pySortedStrings l2 := by
  apply List.eq_of_perm_of_sorted (r := pyStrLeRel)
    (((List.perm_insertionSort pyStrLeRel l1).trans h).trans
      (List.perm_insertionSort pyStrLeRel l2).symm)
  · exact List.sorted_insertionSort pyStrLeRel l1
  · exact List.sorted_insertionSort pyStrLeRel l2

mutual

/-- src/emmaa/db/manager.py, sorted_json_string: produce a string that is
unique to a json contents.  Strings pass through; lists become the
comma-joined sort of their elements canonical forms in brackets; dicts
become the comma-joined sort of key + canonical value strings in braces;
floats become their default decimal representation; any other type raises
TypeError (modelled as Except.error). -/
def sorted_json_string : JsonValue → Except String String
  | .str s => .ok s
  | .list l =>
      (sjsList l).map (fun ss =>
        "[" ++ String.intercalate "," (pySortedStrings ss) ++ "]")
  | .dict d =>
      (sjsDict d).map (fun ss =>
        "\x7b" ++ String.intercalate "," (pySortedStrings ss) ++ "\x7d")
  | .float s => .ok s
  | .int _ => .error "Invalid type: int"
  | .bool _ => .error "Invalid type: bool"
  | .null => .error "Invalid type: NoneType"
termination_by structural j => j

/-- The generator `(sorted_json_string(s) for s in json_thing)` in the
list branch of sorted_json_string: first failure aborts. -/
def sjsList : List JsonValue → Except String (List String)
  | [] => .ok []
  | x :: xs => do
      let s ← sorted_json_string x
      let ss ← sjsList xs
      pure (s :: ss)
termination_by structural l => l

/-- The generator `(k + sorted_json_string(v) for k, v in items)` in the
dict branch of sorted_json_string. -/
def sjsDict : List (String × JsonValue) → Except String (List String)
  | [] => .ok []
  | kv :: xs => do
      let s ← sorted_json_string kv.2
      let ss ← sjsDict xs
      pure ((kv.1 ++ s) :: ss)
termination_by structural d => d

end

/-- UTF-8 encoding of a single code point (models Python str.encode). -/
def encodeUtf8Char (c : Nat) : List Nat :=
  if c < 0x80 then [c]
  else if c < 0x800 then [0xC0 + c / 0x40, 0x80 + c % 0x40]
  else if c < 0x10000 then
    [0xE0 + c / 0x1000, 0x80 + (c / 0x40) % 0x40, 0x80 + c % 0x40]
  else [0xF0 + c / 0x40000, 0x80 + (c / 0x1000) % 0x40,
        0x80 + (c / 0x40) % 0x40, 0x80 + c % 0x40]

/-- The UTF-8 bytes of a string, as natural numbers below 256
(models Python `s.encode(utf-8)`). -/
def strBytes (s : String) : List Nat :=
  (s.data.map (fun c => encodeUtf8Char c.toNat)).flatten

/-- The 32-bit FNV-1a hash of a byte sequence, as implemented by the
fnvhash package used by src/emmaa/db/manager.py: start from the 32-bit
offset basis, xor each byte in, multiply by the 32-bit FNV prime, reduce
modulo 2^32. -/
def fnv1a_32 (bs : List Nat) : Nat :=
  bs.foldl (fun h b => ((h ^^^ b) * 16777619) % 4294967296) 2166136261

/-- src/emmaa/db/manager.py, hash_query: create an FNV-1a 32-bit hash
from the query json and model_id, hashing the UTF-8 encoding of
model_id + ":" + sorted_json_string(query_json). -/
def hash_query (query_json : JsonValue) (model_id : String) : Except String Nat := do
  let s ← sorted_json_string query_json
  pure (fnv1a_32 (strBytes (model_id ++ ":" ++ s)))

mutual

/-- True exactly when a value is built only of strings, lists, dicts and
floats: the types sorted_json_string serializes. -/
def goodJson : JsonValue → Bool
  | .str _ => true
  | .float _ => true
  | .int _ => false
  | .bool _ => false
  | .null => false
  | .list l => goodJsonList l
  | .dict d => goodJsonDict d
termination_by structural j => j

/-- goodJson over every element of a list. -/
def goodJsonList : List JsonValue → Bool
  | [] => true
  | x :: xs => goodJson x && goodJsonList xs
termination_by structural l => l

/-- goodJson over every dict value. -/
def goodJsonDict : List (String × JsonValue) → Bool
  | [] => true
  | kv :: xs => goodJson kv.2 && goodJsonDict xs
termination_by structural d => d

end

mutual

/-- Semantic equality of json values: equal scalars, lists equal up to
permutation of elements (recursively), dicts equal up to permutation of
entries with equal keys and recursively equal values.  This is the
"same content, different key/element order" relation of the claim. -/
inductive SemEq : JsonValue → JsonValue → Prop where
  | str (s : String) : SemEq (.str s) (.str s)
  | float (s : String) : SemEq (.float s) (.float s)
  | int (n : Int) : SemEq (.int n) (.int n)
  | bool (b : Bool) : SemEq (.bool b) (.bool b)
  | null : SemEq .null .null
  | list {l1 l2 l3 : List JsonValue} :
      SemEqList l1 l2 → l2.Perm l3 → SemEq (.list l1) (.list l3)
  | dict {d1 d2 d3 : List (String × JsonValue)} :
      SemEqDict d1 d2 → d2.Perm d3 → SemEq (.dict d1) (.dict d3)

/-- Pointwise SemEq on lists. -/
inductive SemEqList : List JsonValue → List JsonValue → Prop where
  | nil : SemEqList [] []
  | cons {x y xs ys} : SemEq x y → SemEqList xs ys → SemEqList (x :: xs) (y :: ys)

/-- Pointwise SemEq on dict entries, keeping keys equal. -/
inductive SemEqDict : List (String × JsonValue) → List (String × JsonValue) → Prop where
  | nil : SemEqDict [] []
  | cons {k x y xs ys} : SemEq x y → SemEqDict xs ys → SemEqDict ((k, x) :: xs) ((k, y) :: ys)

end

theorem except_map_ok {ε α β : Type} (f : α → β) (e : Except ε α) (y : β) :
    e.map f = .ok y ↔ ∃ x, e = .ok x ∧ y = f x := by
  cases e <;> simp [Except.map, eq_comm]

theorem sjsList_cons_ok {x : JsonValue} {xs : List JsonValue} {ss : List String} :
    sjsList (x :: xs) = .ok ss ↔
      ∃ s ss1, sorted_json_string x = .ok s ∧ sjsList xs = .ok ss1 ∧ ss = s :: ss1 := by
  rw [sjsList]
  cases h1 : sorted_json_string x <;> cases h2 : sjsList xs <;>
    simp [bind, Except.bind, pure, Except.pure, eq_comm]

theorem sjsDict_cons_ok {kv : String × JsonValue} {xs : List (String × JsonValue)}
    {ss : List String} :
    sjsDict (kv :: xs) = .ok ss ↔
      ∃ s ss1, sorted_json_string kv.2 = .ok s ∧ sjsDict xs = .ok ss1 ∧
        ss = (kv.1 ++ s) :: ss1 := by
  rw [sjsDict]
  cases h1 : sorted_json_string kv.2 <;> cases h2 : sjsDict xs <;>
    simp [bind, Except.bind, pure, Except.pure, eq_comm]

theorem sjsList_perm :
    ∀ {l2 l3 : List JsonValue}, l2.Perm l3 → ∀ ss, sjsList l2 = .ok ss →
      ∃ ss2, sjsList l3 = .ok ss2 ∧ ss.Perm ss2 := by
  intro l2 l3 hp
  induction hp with
  | nil => intro ss h; exact ⟨ss, h, List.Perm.refl ss⟩
  | cons x _ ih =>
      intro ss h
      obtain ⟨s, ss1, hx, ht, rfl⟩ := sjsList_cons_ok.mp h
      obtain ⟨ss2, h2, hperm⟩ := ih ss1 ht
      exact ⟨s :: ss2, sjsList_cons_ok.mpr ⟨s, ss2, hx, h2, rfl⟩,
        List.Perm.cons s hperm⟩
  | swap x y l =>
      intro ss h
      obtain ⟨sy, ss1, hy, h1, rfl⟩ := sjsList_cons_ok.mp h
      obtain ⟨sx, ss2, hx, h2, rfl⟩ := sjsList_cons_ok.mp h1
      exact ⟨sx :: sy :: ss2,
        sjsList_cons_ok.mpr ⟨sx, sy :: ss2, hx,
          sjsList_cons_ok.mpr ⟨sy, ss2, hy, h2, rfl⟩, rfl⟩,
        List.Perm.swap sx sy ss2⟩
  | trans _ _ ih1 ih2 =>
      intro ss h
      obtain ⟨ss2, h2, hp2⟩ := ih1 ss h
      obtain ⟨ss3, h3, hp3⟩ := ih2 ss2 h2
      exact ⟨ss3, h3, hp2.trans hp3⟩

theorem sjsDict_perm :
    ∀ {d2 d3 : List (String × JsonValue)}, d2.Perm d3 → ∀ ss, sjsDict d2 = .ok ss →
      ∃ ss2, sjsDict d3 = .ok ss2 ∧ ss.Perm ss2 := by
  intro d2 d3 hp
  induction hp with
  | nil => intro ss h; exact ⟨ss, h, List.Perm.refl ss⟩
  | cons x _ ih =>
      intro ss h
      obtain ⟨s, ss1, hx, ht, rfl⟩ := sjsDict_cons_ok.mp h
      obtain ⟨ss2, h2, hperm⟩ := ih ss1 ht
      exact ⟨(x.1 ++ s) :: ss2, sjsDict_cons_ok.mpr ⟨s, ss2, hx, h2, rfl⟩,
        List.Perm.cons _ hperm⟩
  | swap x y l =>
      intro ss h
      obtain ⟨sy, ss1, hy, h1, rfl⟩ := sjsDict_cons_ok.mp h
      obtain ⟨sx, ss2, hx, h2, rfl⟩ := sjsDict_cons_ok.mp h1
      exact ⟨(x.1 ++ sx) :: (y.1 ++ sy) :: ss2,
        sjsDict_cons_ok.mpr ⟨sx, (y.1 ++ sy) :: ss2, hx,
          sjsDict_cons_ok.mpr ⟨sy, ss2, hy, h2, rfl⟩, rfl⟩,
        List.Perm.swap _ _ ss2⟩
  | trans _ _ ih1 ih2 =>
      intro ss h
      obtain ⟨ss2, h2, hp2⟩ := ih1 ss h
      obtain ⟨ss3, h3, hp3⟩ := ih2 ss2 h2
      exact ⟨ss3, h3, hp2.trans hp3⟩

mutual

theorem semEq_sjs : ∀ {a b : JsonValue}, SemEq a b →
    ∀ s, sorted_json_string a = .ok s → sorted_json_string b = .ok s
  | _, _, .str _ => fun _ h => h
  | _, _, .float _ => fun _ h => h
  | _, _, .int _ => fun _ h => h
  | _, _, .bool _ => fun _ h => h
  | _, _, .null => fun _ h => h
  | _, _, .list hl hp => fun s h => by
      rw [sorted_json_string] at h ⊢
      rw [except_map_ok] at h ⊢
      obtain ⟨ss, h1, hs⟩ := h
      have h2 := semEqList_sjs hl ss h1
      obtain ⟨ss2, h3, hperm⟩ := sjsList_perm hp ss h2
      exact ⟨ss2, h3, by rw [hs, pySortedStrings_eq_of_perm hperm]⟩
  | _, _, .dict hd hp => fun s h => by
      rw [sorted_json_string] at h ⊢
      rw [except_map_ok] at h ⊢
      obtain ⟨ss, h1, hs⟩ := h
      have h2 := semEqDict_sjs hd ss h1
      obtain ⟨ss2, h3, hperm⟩ := sjsDict_perm hp ss h2
      exact ⟨ss2, h3, by rw [hs, pySortedStrings_eq_of_perm hperm]⟩
termination_by structural h => h

theorem semEqList_sjs : ∀ {l1 l2 : List JsonValue}, SemEqList l1 l2 →
    ∀ ss, sjsList l1 = .ok ss → sjsList l2 = .ok ss
  | _, _, .nil => fun _ h => h
  | _, _, .cons hx ht => fun ss h => by
      obtain ⟨s, ss1, h1, h2, rfl⟩ := sjsList_cons_ok.mp h
      exact sjsList_cons_ok.mpr ⟨s, ss1, semEq_sjs hx s h1, semEqList_sjs ht ss1 h2, rfl⟩
termination_by structural h => h

theorem semEqDict_sjs : ∀ {d1 d2 : List (String × JsonValue)}, SemEqDict d1 d2 →
    ∀ ss, sjsDict d1 = .ok ss → sjsDict d2 = .ok ss
  | _, _, .nil => fun _ h => h
  | _, _, @SemEqDict.cons k x y xs ys hx ht => fun ss h => by
      obtain ⟨s, ss1, h1, h2, rfl⟩ := sjsDict_cons_ok.mp h
      exact sjsDict_cons_ok.mpr ⟨s, ss1, semEq_sjs hx s h1, semEqDict_sjs ht ss1 h2, rfl⟩
termination_by structural h => h

end

/-- C1: for every pair of semantically equal query serializations that
differ only in dict key order or list element order (at any nesting
level), and every model id, the canonical string produced by
sorted_json_string is identical, and therefore the FNV-1a hash of
model_id + ":" + canonical_form computed by hash_query is identical. -/
theorem C1_hash_invariant_under_reordering
    (j1 j2 : JsonValue) (m s1 s2 : String) (h : SemEq j1 j2)
    (h1 : sorted_json_string j1 = .ok s1)
    (h2 : sorted_json_string j2 = .ok s2) :
    s1 = s2 ∧ hash_query j1 m = hash_query j2 m := by
  have h3 := semEq_sjs h s1 h1
  rw [h3] at h2
  injection h2 with h4
  refine ⟨h4, ?_⟩
  rw [hash_query, hash_query, h1, h3]

/-- Witness for C1 at a concrete nested input: the dict
(b = [x, y], a = 1.5) written in two entry/element orders canonicalizes
to the same string and hashes equally. -/
theorem C1_hash_invariant_under_reordering_witness :
    ("\x7ba1.5,b[x,y]\x7d" : String) = "\x7ba1.5,b[x,y]\x7d" ∧
    hash_query (.dict [("b", .list [.str "x", .str "y"]), ("a", .float "1.5")])
        "test_model" =
      hash_query (.dict [("a", .float "1.5"), ("b", .list [.str "y", .str "x"])])
        "test_model" :=
  C1_hash_invariant_under_reordering
    (.dict [("b", .list [.str "x", .str "y"]), ("a", .float "1.5")])
    (.dict [("a", .float "1.5"), ("b", .list [.str "y", .str "x"])])
    "test_model" "\x7ba1.5,b[x,y]\x7d" "\x7ba1.5,b[x,y]\x7d"
    (@SemEq.dict
      [("b", .list [.str "x", .str "y"]), ("a", .float "1.5")]
      [("b", .list [.str "y", .str "x"]), ("a", .float "1.5")]
      [("a", .float "1.5"), ("b", .list [.str "y", .str "x"])]
      (SemEqDict.cons
        (@SemEq.list [.str "x", .str "y"] [.str "x", .str "y"]
          [.str "y", .str "x"]
          (SemEqList.cons (SemEq.str "x")
            (SemEqList.cons (SemEq.str "y") SemEqList.nil))
          (by decide))
        (SemEqDict.cons (SemEq.float "1.5") SemEqDict.nil))
      (by decide))
    (by decide) (by decide)

theorem except_isOk_map {ε α β : Type} (f : α → β) (e : Except ε α) :
    (e.map f).isOk = e.isOk := by cases e <;> rfl

mutual

theorem sjs_isOk : ∀ j : JsonValue, (sorted_json_string j).isOk = goodJson j
  | .str _ => rfl
  | .float _ => rfl
  | .int _ => rfl
  | .bool _ => rfl
  | .null => rfl
  | .list l => by
      rw [sorted_json_string, goodJson, except_isOk_map, sjsList_isOk l]
  | .dict d => by
      rw [sorted_json_string, goodJson, except_isOk_map, sjsDict_isOk d]
termination_by structural j => j

theorem sjsList_isOk : ∀ l, (sjsList l).isOk = goodJsonList l
  | [] => rfl
  | x :: xs => by
      rw [sjsList, goodJsonList, ← sjs_isOk x, ← sjsList_isOk xs]
      cases hx : sorted_json_string x <;> cases ht : sjsList xs <;>
        simp [bind, Except.bind, pure, Except.pure, Except.isOk, Except.toBool]
termination_by structural l => l

theorem sjsDict_isOk : ∀ d, (sjsDict d).isOk = goodJsonDict d
  | [] => rfl
  | kv :: xs => by
      rw [sjsDict, goodJsonDict, ← sjs_isOk kv.2, ← sjsDict_isOk xs]
      cases hx : sorted_json_string kv.2 <;> cases ht : sjsDict xs <;>
        simp [bind, Except.bind, pure, Except.pure, Except.isOk, Except.toBool]
termination_by structural d => d

end

theorem hash_query_isOk (j : JsonValue) (m : String) :
    (hash_query j m).isOk = goodJson j := by
  rw [hash_query, ← sjs_isOk j]
  cases h : sorted_json_string j <;>
    simp [bind, Except.bind, pure, Except.pure, Except.isOk, Except.toBool]

theorem fnv1a_32_lt (bs : List Nat) : fnv1a_32 bs < 4294967296 := by
  rw [fnv1a_32]
  have key : ∀ (l : List Nat) (acc : Nat), acc < 4294967296 →
      List.foldl (fun h b => ((h ^^^ b) * 16777619) % 4294967296) acc l
        < 4294967296 := by
    intro l
    induction l with
    | nil => intro acc h; simpa using h
    | cons b bs ih =>
        intro acc h
        exact ih _ (Nat.mod_lt _ (by norm_num))
  exact key bs _ (by norm_num)

theorem hash_query_lt {j : JsonValue} {m : String} {h : Nat}
    (hh : hash_query j m = .ok h) : h < 4294967296 := by
  rw [hash_query] at hh
  cases he : sorted_json_string j with
  | error e => rw [he] at hh; simp [bind, Except.bind] at hh
  | ok s =>
      rw [he] at hh
      simp only [bind, Except.bind, pure, Except.pure, Except.ok.injEq] at hh
      rw [← hh]
      exact fnv1a_32_lt _

/-- C7 counterexample: an integer is a number, yet sorted_json_string and
hash_query reject it with a TypeError, contradicting the claim that
canonicalization succeeds on every mapping/list/string/number structure. -/
theorem C7_counterexample_int_rejected :
    sorted_json_string (.dict [("k", .int 3)]) = .error "Invalid type: int" ∧
    hash_query (.dict [("k", .int 3)]) "m" = .error "Invalid type: int" := by
  constructor <;> decide

/-- C7 as amended: canonicalization (and hashing) succeeds exactly when
every value in the structure is a mapping, list, string or float; ints,
bools and None are rejected with a TypeError rather than silently
coerced; on success the hash is a 32-bit value. -/
theorem C7_canonicalization_total_on_supported_values (j : JsonValue) (m : String) :
    ((sorted_json_string j).isOk = true ↔ goodJson j = true) ∧
    ((hash_query j m).isOk = true ↔ goodJson j = true) ∧
    (∀ h, hash_query j m = .ok h → h < 4294967296) :=
  ⟨by rw [sjs_isOk], by rw [hash_query_isOk], fun _ hh => hash_query_lt hh⟩

/-- Witness for C7 at concrete inputs: a supported dict canonicalizes and
hashes, and its hash value is below 2^32. -/
theorem C7_canonicalization_total_on_supported_values_witness :
    (sorted_json_string (.dict [("a", .float "1.0")])).isOk = true ∧
    (hash_query (.dict [("a", .float "1.0")]) "m").isOk = true ∧
    660295814 < 4294967296 :=
  ⟨(C7_canonicalization_total_on_supported_values (.dict [("a", .float "1.0")]) "m").1.mpr
      (by decide),
   (C7_canonicalization_total_on_supported_values (.dict [("a", .float "1.0")]) "m").2.1.mpr
      (by decide),
   (C7_canonicalization_total_on_supported_values (.dict [("a", .float "1.0")]) "m").2.2
      660295814 (by decide)⟩

/-- The evidence stored under one answer key of a result payload: a list
of (sentence, link) pairs, as consumed by the report renderers. -/
abbrev Evidence := List (String × String)

/-- A result payload (result_json): a Python dict mapping answer
identity keys to supporting evidence, modelled as an association list in
insertion order. -/
abbrev Payload := List (String × Evidence)

/-- Python falsiness of the optional previous payload in
`if not old_result_json`: true for None and for an empty dict. -/
def pyFalsyPayload : Option Payload → Bool
  | none => true
  | some p => p.isEmpty

/-- src/emmaa/answer_queries.py, is_query_result_diff: return True if
there is a delta between results.  True if this is the first result
(falsy previous payload); otherwise compare the sets of keys of the two
payloads. -/
def is_query_result_diff (new_result_json : Payload)
    (old_result_json : Option Payload) : Bool :=
  if pyFalsyPayload old_result_json then true
  else
    let old_result_hashes := (old_result_json.getD []).map Prod.fst
    let new_result_hashes := new_result_json.map Prod.fst
    !(decide (new_result_hashes.toFinset = old_result_hashes.toFinset))

/-- The three delta classes of the spec. -/
inductive Delta where
  | FIRST
  | CHANGED
  | UNCHANGED
deriving DecidableEq

/-- The classification implicit in the branch structure shared by
make_str_report_one_query and _make_html_one_query_inner in
src/emmaa/answer_queries.py: if is_query_result_diff then (first-result
message when the previous payload is falsy, else new-result message),
else unchanged message. -/
def classify (new_result_json : Payload) (old_result_json : Option Payload) :
    Delta :=
  if is_query_result_diff new_result_json old_result_json then
    if pyFalsyPayload old_result_json then Delta.FIRST else Delta.CHANGED
  else Delta.UNCHANGED

/-- src/emmaa/answer_queries.py, _process_result_to_str: concatenate the
sentences of every evidence entry of the payload after a newline. -/
def _process_result_to_str (result_json : Payload) : String :=
  "\n" ++ String.join
    (result_json.map (fun kv => String.join (kv.2.map (fun sl => sl.1))))

/-- C2 counterexample: with a present but empty previous payload the
classifier returns FIRST, although the claim requires FIRST only when
the previous payload is absent (here the key sets, namely h1 against
nothing, differ, so the claim requires CHANGED). -/
theorem C2_counterexample_empty_previous_payload :
    classify [("h1", [])] (some []) = Delta.FIRST ∧
    (some ([] : Payload)) ≠ (none : Option Payload) ∧
    Delta.FIRST ≠ Delta.CHANGED := by
  refine ⟨by decide, by decide, by decide⟩

/-- C2 as amended: the classifier returns FIRST exactly when the
previous payload is absent or is an empty mapping; for a present,
nonempty previous payload it returns CHANGED exactly when the answer key
sets differ and UNCHANGED exactly when they are identical, regardless of
the evidence stored under the keys. -/
theorem C2_delta_classification (new : Payload) (old : Option Payload) :
    (classify new old = Delta.FIRST ↔
      (old = none ∨ old = some ([] : Payload))) ∧
    (∀ o : Payload, old = some o → o ≠ [] →
      ((classify new old = Delta.CHANGED ↔
        (new.map Prod.fst).toFinset ≠ (o.map Prod.fst).toFinset) ∧
       (classify new old = Delta.UNCHANGED ↔
        (new.map Prod.fst).toFinset = (o.map Prod.fst).toFinset))) := by
  constructor
  · cases old with
    | none => simp [classify, is_query_result_diff, pyFalsyPayload]
    | some o =>
        cases o with
        | nil => simp [classify, is_query_result_diff, pyFalsyPayload]
        | cons kv rest =>
            constructor
            · intro h
              exfalso
              revert h
              simp only [classify, is_query_result_diff, pyFalsyPayload,
                List.isEmpty_cons, Bool.false_eq_true, if_false]
              split <;> simp
            · intro h
              rcases h with h | h <;> simp at h
  · intro o ho hne
    subst ho
    cases o with
    | nil => exact absurd rfl hne
    | cons kv rest =>
        simp only [classify, is_query_result_diff, pyFalsyPayload]
        by_cases h : (new.map Prod.fst).toFinset =
            ((kv :: rest).map Prod.fst).toFinset
        · simp [List.isEmpty, h]
        · simp [List.isEmpty, h]

/-- Witness for C2 at concrete inputs: same key set with different
evidence classifies UNCHANGED; a properly larger key set classifies
CHANGED. -/
theorem C2_delta_classification_witness :
    classify [("h1", [("s2", "")])] (some [("h1", [("s1", "l1")])]) =
      Delta.UNCHANGED ∧
    classify [("h1", []), ("h2", [])] (some [("h1", [])]) = Delta.CHANGED :=
  ⟨((C2_delta_classification [("h1", [("s2", "")])]
        (some [("h1", [("s1", "l1")])])).2
      [("h1", [("s1", "l1")])] rfl (by decide)).2.mpr (by decide),
   ((C2_delta_classification [("h1", []), ("h2", [])]
        (some [("h1", [])])).2
      [("h1", [])] rfl (by decide)).1.mpr (by decide)⟩

/-- Modelled from the spec: the path statement inside a Query object
(emmaa/queries.py is not under src/): a relationship type tag and the
subject/object entity names, as read by _make_query_simple_dict. -/
structure PathStmt where
  typeName : String
  subjName : String
  objName : String
deriving DecidableEq

/-- Modelled from the spec: an emmaa.queries.Query object
(emmaa/queries.py is not under src/): an abstract serializable
description of a standing question, carrying its nested-mapping
serialization (the value of to_json), its display string (str), and its
path statement.  Per spec section 3 the normalized serialization
determines the query, so the query json stored in the database is
identified with the Query value it serializes and Query._from_json is
the identity of this embedding. -/
structure Query where
  json : JsonValue
  str : String
  path_stmt : PathStmt
deriving DecidableEq

/-- Modelled from the spec: Query.get_hash_with_model (emmaa/queries.py
is not under src/): the content hash of the query serialization together
with the model id, the 32-bit FNV-1a digest over
model_id + ":" + canonical_serialization (spec section 3), i.e.
hash_query of the query json. -/
def get_hash_with_model (q : Query) (model_id : String) : Except String Nat :=
  hash_query q.json model_id

/-- A row of the query table: model id, stored query json (identified
with the Query it serializes), content hash. -/
structure QueryRow where
  model_id : String
  json : Query
  hash : Nat
deriving DecidableEq

/-- A row of the user table: id and unique email (spec section 6). -/
structure UserRow where
  id : Int
  email : String
deriving DecidableEq

/-- A row of the user_query table: user id (NULL for anonymous),
query hash, subscription flag, submission count. -/
structure UserQueryRow where
  user_id : Option Int
  query_hash : Nat
  subscription : Bool
  count : Nat
deriving DecidableEq

/-- A row of the result table: query hash, model checker type, result
payload, creation date. -/
structure ResultRow where
  query_hash : Nat
  mc_type : String
  result_json : Payload
  date : Nat
deriving DecidableEq

/-- The four tables of the EMMAA database. -/
structure DbState where
  users : List UserRow
  queries : List QueryRow
  user_queries : List UserQueryRow
  results : List ResultRow
deriving DecidableEq

/-- A (model_id, query, mc_type, result_json, date) tuple as produced by
the queries in get_results_from_query and get_results and consumed by
_weed_results and the report code. -/
structure ResultTuple where
  model_id : String
  query : Query
  mc_type : String
  result_json : Payload
  date : Nat
deriving DecidableEq

/-- Sequenced evaluation of a fallible function over a list, first
failure aborting: the effect of a Python for-loop or comprehension whose
body may raise. -/
def exceptMapList {α β : Type} (f : α → Except String β) :
    List α → Except String (List β)
  | [] => .ok []
  | x :: xs => do
      let y ← f x
      let ys ← exceptMapList f xs
      pure (y :: ys)

/-- Python list indexing normalization: a negative index counts from the
end of a list of the given length. -/
def pyNormIndex (len : Nat) (i : Int) : Int := if i < 0 then i + len else i

/-- Python list indexing l[i]: negative indices count from the end, an
out-of-range index raises IndexError. -/
def pyIndex {α : Type} (l : List α) (i : Int) : Except String α :=
  if h : 0 ≤ pyNormIndex l.length i ∧ pyNormIndex l.length i < (l.length : Int)
  then .ok (l.get ⟨(pyNormIndex l.length i).toNat, by omega⟩)
  else .error "IndexError"

/-- Append a value to the group of a key in an association list of
groups, adding the key at the end on first occurrence: building a
Python defaultdict(list) in insertion order. -/
def addToGroup {κ α : Type} [DecidableEq κ] (k : κ) (v : α) :
    List (κ × List α) → List (κ × List α)
  | [] => [(k, [v])]
  | g :: rest =>
      if g.1 = k then (g.1, g.2 ++ [v]) :: rest
      else g :: addToGroup k v rest

/-- Group a list of keyed values by key, keys in first-occurrence order
and each group in insertion order (a Python defaultdict(list) filled by
a loop, then iterated). -/
def groupPairs {κ α : Type} [DecidableEq κ] (l : List (κ × α)) :
    List (κ × List α) :=
  l.foldl (fun acc kv => addToGroup kv.1 kv.2 acc) []

/-- The sort relation of _weed_results: ascending date (Python sorted
with key r[-1] is a stable sort by this relation). -/
def dateLe (a b : ResultTuple) : Prop := a.date ≤ b.date

instance : DecidableRel dateLe := fun a b => Nat.decLe a.date b.date

/-- src/emmaa/db/manager.py, _weed_results: group the result tuples by
(query hash recomputed from the query and model id, mc_type), sort each
group ascending by date, and take element [-latest_order] of each group;
a group with fewer elements than latest_order raises IndexError. -/
def _weed_results (result_iter : List ResultTuple) (latest_order : Nat) :
    Except String (List ResultTuple) := do
  let keyed ← exceptMapList (fun r =>
      (get_hash_with_model r.query r.model_id).map
        (fun h => ((h, r.mc_type), r)))
    result_iter
  let sorted_results := (groupPairs keyed).map
    (fun g => List.insertionSort dateLe g.2)
  exceptMapList (fun g => pyIndex g (-(latest_order : Int))) sorted_results

/-- src/emmaa/db/manager.py, EmmaaDatabaseManager.get_results_from_query:
hash the query with each model id, join result rows having one of these
hashes to the query rows with the same hash (recovering model_id and the
stored query json; _make_queries_in_results, which replaces the stored
json by the Query it serializes, is the identity of this embedding), and
weed by latest_order. -/
def query_result_join (db : DbState) (hashes : List Nat) :
    List ResultTuple :=
  (db.queries.map (fun qr =>
      db.results.filterMap (fun rr =>
        if rr.query_hash ∈ hashes ∧ qr.hash = rr.query_hash then
          some (⟨qr.model_id, qr.json, rr.mc_type, rr.result_json, rr.date⟩ :
            ResultTuple)
        else none))).flatten

def get_results_from_query (db : DbState) (query : Query)
    (model_ids : List String) (latest_order : Nat) :
    Except String (List ResultTuple) := do
  let hashes ← exceptMapList (fun m => get_hash_with_model query m) model_ids
  _weed_results (query_result_join db hashes) latest_order

/-- src/emmaa/db/manager.py, update_subscription: set the subscription
status of a user_query row when the new status differs. -/
def update_subscription (user_query : UserQueryRow) (new_sub_status : Bool) :
    UserQueryRow :=
  if new_sub_status ≠ user_query.subscription then
    { user_query with subscription := new_sub_status }
  else user_query

/-- src/emmaa/db/manager.py, EmmaaDatabaseManager.add_user: insert a new
user row; an IntegrityError (duplicate id or duplicate unique email,
spec section 6) is caught, leaving the table unchanged. -/
def add_user (db : DbState) (user_id : Int) (email : String) : DbState :=
  if db.users.any (fun u => u.id == user_id || u.email == email) then db
  else { db with users := db.users ++ [⟨user_id, email⟩] }

/-- Python falsiness of the user id argument (None or 0). -/
def pyFalsyId : Option Int → Bool
  | none => true
  | some i => i == 0

/-- The model_ids argument of put_queries as a dynamically typed Python
value: a list, a set (carried with its iteration order), or a value of
any other type. -/
inductive ModelIdsArg where
  | list (l : List String)
  | set (l : List String)
  | other

/-- Update the first row satisfying p (the row that
session.query(...).first() returns) in place. -/
def updateFirst {α : Type} (p : α → Bool) (f : α → α) : List α → List α
  | [] => []
  | x :: xs => if p x then f x :: xs else x :: updateFirst p f xs

/-- The session state accumulated by the for-loop of put_queries: the
live user_query table (rows fetched by first() are mutated in place) and
the new_queries and new_user_queries lists to be added at commit. -/
structure PutAcc where
  uq_table : List UserQueryRow
  new_queries : List QueryRow
  new_user_queries : List UserQueryRow
deriving DecidableEq

/-- The for-loop over model_ids in put_queries: hash the query with the
model; if the hash is not among the hashes read at session entry, stage
a new query row; if it is not among the hashes of the user's
subscriptions read at session entry, stage a new user_query row with
count 1, else update the first matching row of the live table (set the
subscription via update_subscription only when subscribe is passed, and
always increment count).  A hashing failure aborts the loop. -/
def put_queries_loop (query : Query) (user_id : Option Int) (subscribe : Bool)
    (existing_hashes existing_user_queries : List Nat) :
    List String → PutAcc → Except String PutAcc
  | [], acc => .ok acc
  | model_id :: rest, acc => do
      let qh ← get_hash_with_model query model_id
      let nq := if qh ∈ existing_hashes then acc.new_queries
        else acc.new_queries ++ [⟨model_id, query, qh⟩]
      let acc2 : PutAcc :=
        if qh ∈ existing_user_queries then
          { acc with
            new_queries := nq,
            uq_table := updateFirst
              (fun r => r.user_id == user_id && r.query_hash == qh)
              (fun r =>
                let r2 := if subscribe then update_subscription r subscribe
                  else r
                { r2 with count := r2.count + 1 })
              acc.uq_table }
        else
          { acc with
            new_queries := nq,
            new_user_queries :=
              acc.new_user_queries ++ [⟨user_id, qh, subscribe, 1⟩] }
      put_queries_loop query user_id subscribe existing_hashes
        existing_user_queries rest acc2

/-- The check `if user_email and user_id` of put_queries: a logged-in
user (truthy email and id) missing from the user table is added via
add_user; anonymous or partially identified callers leave the table
unchanged. -/
def ensure_user (db : DbState) (user_email : String) (user_id : Option Int) :
    DbState :=
  if user_email ≠ "" ∧ pyFalsyId user_id = false then
    match user_id with
    | some uid =>
        if (db.users.filter (fun u => u.id == uid)).isEmpty then
          add_user db uid user_email
        else db
    | none => db
  else db

/-- The body of put_queries once model_ids has passed the type check:
anonymous submissions (falsy email and id) are stored under the sentinel
anonymous email with NULL user id; the hashes of all stored queries and
of this user's subscriptions are read; a logged-in user missing from the
user table is added via add_user; the loop stages inserts and updates;
at commit the staged rows are appended.  An error rolls the whole call
back (the session manager of src/emmaa/db/manager.py rolls back on
exception), so an erroneous call leaves no partial state. -/
def put_queries_on_collection (db : DbState) (user_email : String)
    (user_id : Option Int) (query : Query) (ms : List String)
    (subscribe : Bool) : Except String DbState := do
  let anon := user_email == "" && pyFalsyId user_id
  let user_email := if anon then "anonymous@emmaa.bio" else user_email
  let user_id := if anon then none else user_id
  let existing_hashes := db.queries.map (fun r => r.hash)
  let existing_user_queries := (db.user_queries.filter
      (fun r => r.user_id == user_id)).map (fun r => r.query_hash)
  let db2 := ensure_user db user_email user_id
  let acc ← put_queries_loop query user_id subscribe existing_hashes
    existing_user_queries ms ⟨db2.user_queries, [], []⟩
  pure { db2 with
    queries := db2.queries ++ acc.new_queries,
    user_queries := acc.uq_table ++ acc.new_user_queries }

/-- src/emmaa/db/manager.py, EmmaaDatabaseManager.put_queries: add
queries to the database for a given user.  Raises TypeError before
touching the database when model_ids is neither a list nor a set. -/
def put_queries (db : DbState) (user_email : String) (user_id : Option Int)
    (query : Query) (model_ids : ModelIdsArg) (subscribe : Bool) :
    Except String DbState :=
  match model_ids with
  | .other => .error "TypeError"
  | .list ms => put_queries_on_collection db user_email user_id query ms subscribe
  | .set ms => put_queries_on_collection db user_email user_id query ms subscribe

/-- src/emmaa/db/manager.py, EmmaaDatabaseManager.get_queries: the
queries stored for a model id (stored json turned back into Query
objects, the identity of this embedding). -/
def get_queries (db : DbState) (model_id : String) : List Query :=
  (db.queries.filter (fun r => r.model_id == model_id)).map (fun r => r.json)

/-- src/emmaa/db/manager.py, EmmaaDatabaseManager.put_results: append one
immutable result row per (query, mc_type, result_json) triple, stamped
with the current date. -/
def put_results (db : DbState) (model_id : String)
    (query_results : List (Query × String × Payload)) (date : Nat) :
    Except String DbState := do
  let results ← exceptMapList (fun qr =>
      (get_hash_with_model qr.1 model_id).map
        (fun h => (⟨h, qr.2.1, qr.2.2, date⟩ : ResultRow)))
    query_results
  pure { db with results := db.results ++ results }

theorem keyed_const (rs : List ResultTuple) (h : Nat) (mc : String)
    (hh : ∀ r ∈ rs, get_hash_with_model r.query r.model_id = .ok h ∧
      r.mc_type = mc) :
    exceptMapList (fun r => (get_hash_with_model r.query r.model_id).map
      (fun h2 => ((h2, r.mc_type), r))) rs =
    .ok (rs.map (fun r => (((h, mc) : Nat × String), r))) := by
  induction rs with
  | nil => rfl
  | cons x xs ih =>
      obtain ⟨h1, h2⟩ := hh x (by simp)
      rw [exceptMapList, h1, ih (fun r hr => hh r (by simp [hr]))]
      simp [Except.map, bind, Except.bind, pure, Except.pure, h2]

theorem addToGroup_same {κ α : Type} [DecidableEq κ] (k : κ) (v : α)
    (vs : List α) (rest : List (κ × List α)) :
    addToGroup k v ((k, vs) :: rest) = (k, vs ++ [v]) :: rest := by
  simp [addToGroup]

theorem foldl_addToGroup_const {κ α : Type} [DecidableEq κ] (k : κ) :
    ∀ (l : List α) (vs : List α),
      List.foldl (fun acc kv => addToGroup kv.1 kv.2 acc) [(k, vs)]
        (l.map (fun v => (k, v))) = [(k, vs ++ l)] := by
  intro l
  induction l with
  | nil => intro vs; simp
  | cons x xs ih =>
      intro vs
      simp only [List.map_cons, List.foldl_cons]
      rw [show addToGroup ((k, x) : κ × α).1 ((k, x) : κ × α).2 [(k, vs)] =
        (k, vs ++ [x]) :: [] from addToGroup_same k x vs []]
      rw [ih (vs ++ [x])]
      simp

theorem groupPairs_const_map {κ α : Type} [DecidableEq κ] (k : κ) (x : α)
    (xs : List α) :
    groupPairs ((x :: xs).map (fun v => (k, v))) = [(k, x :: xs)] := by
  rw [groupPairs]
  simp only [List.map_cons, List.foldl_cons]
  rw [show addToGroup ((k, x) : κ × α).1 ((k, x) : κ × α).2 [] = [(k, [x])]
    from rfl]
  rw [foldl_addToGroup_const k xs [x]]
  simp

theorem pyIndex_neg {α : Type} (l : List α) (order : Nat) (h1 : 1 ≤ order)
    (h2 : order ≤ l.length) (hidx : l.length - order < l.length) :
    pyIndex l (-(order : Int)) = .ok (l.get ⟨l.length - order, hidx⟩) := by
  have hn : pyNormIndex l.length (-(order : Int)) =
      -(order : Int) + l.length := by
    rw [pyNormIndex, if_pos (by omega)]
  rw [pyIndex, dif_pos (by rw [hn]; omega)]
  exact congrArg Except.ok (congrArg l.get (Fin.ext (by
    show (pyNormIndex l.length (-(order : Int))).toNat = l.length - order
    rw [hn]; omega)))

theorem weed_single_group (x : ResultTuple) (xs : List ResultTuple)
    (h : Nat) (mc : String) (order : Nat)
    (hh : ∀ r ∈ x :: xs, get_hash_with_model r.query r.model_id = .ok h ∧
      r.mc_type = mc) :
    _weed_results (x :: xs) order =
      (pyIndex (List.insertionSort dateLe (x :: xs)) (-(order : Int))).map
        (fun v => [v]) := by
  rw [_weed_results, keyed_const (x :: xs) h mc hh]
  simp only [bind, Except.bind]
  rw [groupPairs_const_map ((h, mc) : Nat × String) x xs]
  simp only [List.map_cons, List.map_nil]
  rw [exceptMapList]
  cases hp : pyIndex (List.insertionSort dateLe (x :: xs)) (-(order : Int)) with
  | error e => simp [bind, Except.bind, Except.map]
  | ok v => simp [bind, Except.bind, Except.map, exceptMapList, pure, Except.pure]

/-- C3: for every (query-hash, checker-type) group of result records the
resolver sorts the group ascending by timestamp and returns the element
at position len - order; with one record, order 1 returns it; with two
records at dates t1 < t2, order 1 returns the later and order 2 the
earlier; a hash with zero result rows contributes no entry. -/
theorem C3_resolver_selects_len_minus_order :
    (∀ (x : ResultTuple) (xs : List ResultTuple) (h : Nat) (mc : String)
        (order : Nat),
      (∀ r ∈ x :: xs, get_hash_with_model r.query r.model_id = .ok h ∧
        r.mc_type = mc) →
      ∀ (h1 : 1 ≤ order) (h2 : order ≤ (x :: xs).length),
        _weed_results (x :: xs) order =
          .ok [(List.insertionSort dateLe (x :: xs)).get
            ⟨(x :: xs).length - order,
              by rw [List.length_insertionSort]; omega⟩]) ∧
    (∀ (r : ResultTuple) (h : Nat),
      get_hash_with_model r.query r.model_id = .ok h →
      _weed_results [r] 1 = .ok [r]) ∧
    (∀ (r1 r2 : ResultTuple) (h : Nat),
      get_hash_with_model r1.query r1.model_id = .ok h →
      get_hash_with_model r2.query r2.model_id = .ok h →
      r1.mc_type = r2.mc_type → r1.date < r2.date →
      _weed_results [r1, r2] 1 = .ok [r2] ∧
      _weed_results [r1, r2] 2 = .ok [r1]) ∧
    (∀ (db : DbState) (q : Query) (m : String) (order : Nat) (h : Nat),
      get_hash_with_model q m = .ok h → db.results = [] →
      get_results_from_query db q [m] order = .ok []) := by
  refine ⟨?_, ?_, ?_, ?_⟩
  · intro x xs h mc order hkey h1 h2
    rw [weed_single_group x xs h mc order hkey]
    rw [pyIndex_neg (List.insertionSort dateLe (x :: xs)) order h1
      (by rw [List.length_insertionSort]; exact h2)
      (by rw [List.length_insertionSort]; omega)]
    rw [Except.map]
    exact congrArg Except.ok (congrArg (fun v => [v])
      (congrArg _ (Fin.ext (by
        show (List.insertionSort dateLe (x :: xs)).length - order =
          (x :: xs).length - order
        rw [List.length_insertionSort]))))
  · intro r h hr
    rw [weed_single_group r [] h r.mc_type 1
      (by intro s hs; simp at hs; subst hs; exact ⟨hr, rfl⟩)]
    rfl
  · intro r1 r2 h hr1 hr2 hmc hd
    have hkey : ∀ s ∈ [r1, r2],
        get_hash_with_model s.query s.model_id = .ok h ∧
        s.mc_type = r2.mc_type := by
      intro s hs
      simp at hs
      rcases hs with rfl | rfl
      · exact ⟨hr1, hmc⟩
      · exact ⟨hr2, rfl⟩
    have hsort : List.insertionSort dateLe [r1, r2] = [r1, r2] := by
      simp [List.insertionSort, List.orderedInsert, dateLe, Nat.le_of_lt hd]
    constructor
    · rw [weed_single_group r1 [r2] h r2.mc_type 1 hkey, hsort]
      rfl
    · rw [weed_single_group r1 [r2] h r2.mc_type 2 hkey, hsort]
      rfl
  · intro db q m order h hq hres
    rw [get_results_from_query]
    simp only [bind, Except.bind]
    rw [exceptMapList, hq]
    simp only [bind, Except.bind]
    rw [exceptMapList]
    simp only [pure, Except.pure]
    have hrows : query_result_join db [h] = [] := by
      rw [query_result_join, hres]
      simp
    rw [hrows]
    rw [show _weed_results [] order = .ok [] from rfl]

/-- A sample concrete query used by witnesses: its json is the dict
(q = s), its display string q0, its statement Activation(A, B). -/
def sampleQuery : Query :=
  ⟨.dict [("q", .str "s")], "q0", ⟨"Activation", "A", "B"⟩⟩

/-- Witness for C3 at concrete records (hash of sampleQuery with model
m1 is the FNV-1a value 222398943). -/
theorem C3_resolver_selects_len_minus_order_witness :
    _weed_results [⟨"m1", sampleQuery, "pysb", [("h1", [])], 1⟩] 1 =
      .ok [⟨"m1", sampleQuery, "pysb", [("h1", [])], 1⟩] ∧
    (_weed_results [⟨"m1", sampleQuery, "pysb", [("h1", [])], 1⟩,
        ⟨"m1", sampleQuery, "pysb", [("h2", [])], 2⟩] 1 =
      .ok [⟨"m1", sampleQuery, "pysb", [("h2", [])], 2⟩] ∧
     _weed_results [⟨"m1", sampleQuery, "pysb", [("h1", [])], 1⟩,
        ⟨"m1", sampleQuery, "pysb", [("h2", [])], 2⟩] 2 =
      .ok [⟨"m1", sampleQuery, "pysb", [("h1", [])], 1⟩]) ∧
    get_results_from_query ⟨[], [], [], []⟩ sampleQuery ["m1"] 1 = .ok [] :=
  ⟨C3_resolver_selects_len_minus_order.2.1
      ⟨"m1", sampleQuery, "pysb", [("h1", [])], 1⟩ 222398943 (by decide),
   C3_resolver_selects_len_minus_order.2.2.1
      ⟨"m1", sampleQuery, "pysb", [("h1", [])], 1⟩
      ⟨"m1", sampleQuery, "pysb", [("h2", [])], 2⟩ 222398943
      (by decide) (by decide) rfl (by decide),
   C3_resolver_selects_len_minus_order.2.2.2
      ⟨[], [], [], []⟩ sampleQuery "m1" 1 222398943 (by decide) rfl⟩

/-- src/emmaa/answer_queries.py, make_str_report_one_query: a string
message about a query and any change in the results, branching on
is_query_result_diff and the falsiness of the previous payload. -/
def make_str_report_one_query (model_name : String) (query : Query)
    (mc_type : String) (new_result_json : Payload)
    (old_result_json : Option Payload) : String :=
  if is_query_result_diff new_result_json old_result_json then
    if pyFalsyPayload old_result_json then
      "\nThis is the first result to query " ++ query.str ++ " in " ++
        model_name ++ " with " ++ mc_type ++ " model checker." ++
        "\nThe result is:" ++ _process_result_to_str new_result_json
    else
      "\nA new result to query " ++ query.str ++ " in " ++ model_name ++
        " was found with " ++ mc_type ++ " model checker. " ++
        "\nPrevious result was:" ++
        _process_result_to_str (old_result_json.getD []) ++
        "\nNew result is:" ++ _process_result_to_str new_result_json
  else
    "\nA result to query " ++ query.str ++ " in " ++ model_name ++
      " from " ++ mc_type ++ " model checker did not change. The result is:" ++
      _process_result_to_str new_result_json

/-- The pieces appended to response_list for one payload value in
_process_result_to_html: a separator before every element but the first,
then a link anchor when the link is truthy, else a bare anchor. -/
def htmlPieces (v : Evidence) : List String :=
  (v.enum.map (fun il =>
    (if il.1 > 0 then ["<br>"] else []) ++
    [if il.2.2 ≠ "" then
        "<a href=\"" ++ il.2.2 ++
          "\" target=\"_blank\" class=\"status-link\">" ++ il.2.1 ++ "</a>"
      else "<a>" ++ il.2.1 ++ "</a>"])).flatten

/-- src/emmaa/answer_queries.py, _process_result_to_html: make clickable
links for an html report.  The accumulator response_list grows across
the payload values; the variable response is assigned only inside the
loop over the values, so an empty payload leaves it unbound and the
return raises UnboundLocalError. -/
def _process_result_to_html (result_json : Payload) : Except String String :=
  match (result_json.foldl
      (fun (st : List String × Option String) kv =>
        ((st.1 ++ htmlPieces kv.2),
          some (String.join (st.1 ++ htmlPieces kv.2))))
      ([], none)).2 with
  | some response => .ok response
  | none => .error "UnboundLocalError"

/-- src/emmaa/answer_queries.py, _make_html_one_query_inner: the html
fragment for one query, with the same branch structure as
make_str_report_one_query but rendering payloads through
_process_result_to_html. -/
def _make_html_one_query_inner (model_name : String) (query : Query)
    (mc_type : String) (new_result_json : Payload)
    (old_result_json : Option Payload) : Except String String := do
  if is_query_result_diff new_result_json old_result_json then
    if pyFalsyPayload old_result_json then
      let s ← _process_result_to_html new_result_json
      pure ("<p>This is the first result to query " ++ query.str ++ " in " ++
        model_name ++ " with " ++ mc_type ++ " model checker. " ++
        "The result is:<br>" ++ s ++ "</p>")
    else
      let s1 ← _process_result_to_html (old_result_json.getD [])
      let s2 ← _process_result_to_html new_result_json
      pure ("<p>A new result to query " ++ query.str ++ " in " ++
        model_name ++ " was found with " ++ mc_type ++ " model checker.<br>" ++
        "<br>Previous result was:<br>" ++ s1 ++
        "<br>New result is:<br>" ++ s2 ++ "</p>")
  else
    let s ← _process_result_to_html new_result_json
    pure ("<p>A result to query " ++ query.str ++ " in " ++ model_name ++
      " from " ++ mc_type ++ " model checker did not change. " ++
      "The result is:<br>" ++ s ++ "</p>")

/-- The report_format parameter of make_reports_from_results: the two
accepted values. -/
inductive ReportFormat where
  | str
  | html
deriving DecidableEq

/-- The report construction on one (new, old) pair as dispatched on
report_format inside make_reports_from_results: a str report never
fails, an html report can raise through _process_result_to_html. -/
def mk_report : ReportFormat → String → Query → String → Payload →
    Option Payload → Except String String
  | .str, model_name, query, mc_type, new_result_json, old_result_json =>
      .ok (make_str_report_one_query model_name query mc_type
        new_result_json old_result_json)
  | .html, model_name, query, mc_type, new_result_json, old_result_json =>
      _make_html_one_query_inner model_name query mc_type new_result_json
        old_result_json

/-- The reports produced by the inner for-loop over old_results in
make_reports_from_results: one report per old result whose mc_type
matches the new result. -/
def reports_for_olds (fmt : ReportFormat) (r : ResultTuple)
    (old_results : List ResultTuple) : Except String (List String) :=
  exceptMapList (fun old => mk_report fmt r.model_id r.query r.mc_type
      r.result_json (some old.result_json))
    (old_results.filter (fun old => r.mc_type == old.mc_type))

/-- The main loop of make_reports_from_results: skip (model, query,
mc_type) triples already processed; fetch the old results at the given
order; if some exist, report against each of matching mc_type; if none
exist, or the resolver raises IndexError (fewer stored results than
order), report a first result; any other error propagates. -/
def make_reports_go (db : DbState) (order : Nat) (fmt : ReportFormat) :
    List ResultTuple → List (String × Query × String) → List String →
    Except String (List String)
  | [], _, reports => .ok reports
  | r :: rest, processed, reports =>
      if (r.model_id, r.query, r.mc_type) ∈ processed then
        make_reports_go db order fmt rest processed reports
      else
        let step : Except String (List String) :=
          match get_results_from_query db r.query [r.model_id] order with
          | .ok old_results =>
              if old_results.isEmpty then
                (mk_report fmt r.model_id r.query r.mc_type r.result_json
                  none).map (fun rep => reports ++ [rep])
              else
                (reports_for_olds fmt r old_results).map
                  (fun reps => reports ++ reps)
          | .error e =>
              if e = "IndexError" then
                (mk_report fmt r.model_id r.query r.mc_type r.result_json
                  none).map (fun rep => reports ++ [rep])
              else .error e
        match step with
        | .ok reports2 =>
            make_reports_go db order fmt rest
              ((r.model_id, r.query, r.mc_type) :: processed) reports2
        | .error e => .error e

/-- src/emmaa/answer_queries.py, QueryManager.make_reports_from_results:
make a report for each new result; order 2 retrieves the second latest
stored result when the new results are already stored, order 1 the
latest otherwise. -/
def make_reports_from_results (db : DbState) (new_results : List ResultTuple)
    (stored : Bool) (fmt : ReportFormat) : Except String (List String) :=
  make_reports_go db (if stored then 2 else 1) fmt new_results [] []

/-- C4 counterexample: a group with one result record resolved with
order 2 makes _weed_results raise IndexError instead of returning
successfully with the group contributing no entry. -/
theorem C4_counterexample_resolver_raises :
    _weed_results [⟨"m1", sampleQuery, "pysb", [("h1", [])], 5⟩] 2 =
      .error "IndexError" := by decide

theorem join_single (us : List UserRow) (uqs : List UserQueryRow)
    (q : Query) (m mc : String) (p : Payload) (t h : Nat) :
    query_result_join ⟨us, [⟨m, q, h⟩], uqs, [⟨h, mc, p, t⟩]⟩ [h] =
      [⟨m, q, mc, p, t⟩] := by
  rw [query_result_join]
  simp

/-- C4 as amended: a (query-hash, checker-type) group holding fewer
result records than the requested order makes the resolver raise
IndexError (it does not return successfully); the caller
make_reports_from_results catches exactly this IndexError and treats it
as no previous result, reporting a first result, so no error reaches
its caller. -/
theorem C4_fewer_records_raises_and_is_caught
    (us : List UserRow) (uqs : List UserQueryRow) (q : Query)
    (m mc : String) (p newp : Payload) (t d h : Nat)
    (hq : get_hash_with_model q m = .ok h) :
    _weed_results [⟨m, q, mc, p, t⟩] 2 = .error "IndexError" ∧
    make_reports_from_results ⟨us, [⟨m, q, h⟩], uqs, [⟨h, mc, p, t⟩]⟩
      [⟨m, q, mc, newp, d⟩] true .str =
      .ok [make_str_report_one_query m q mc newp none] := by
  have hkey : ∀ s ∈ [(⟨m, q, mc, p, t⟩ : ResultTuple)],
      get_hash_with_model s.query s.model_id = .ok h ∧ s.mc_type = mc := by
    intro s hs
    simp at hs
    subst hs
    exact ⟨hq, rfl⟩
  have hweed : _weed_results [⟨m, q, mc, p, t⟩] 2 = .error "IndexError" := by
    rw [weed_single_group ⟨m, q, mc, p, t⟩ [] h mc 2 hkey]
    rfl
  refine ⟨hweed, ?_⟩
  have hget : get_results_from_query ⟨us, [⟨m, q, h⟩], uqs, [⟨h, mc, p, t⟩]⟩
      q [m] 2 = .error "IndexError" := by
    rw [get_results_from_query]
    simp only [bind, Except.bind]
    rw [exceptMapList, hq]
    simp only [bind, Except.bind]
    rw [exceptMapList]
    simp only [pure, Except.pure]
    rw [join_single]
    exact hweed
  show make_reports_go ⟨us, [⟨m, q, h⟩], uqs, [⟨h, mc, p, t⟩]⟩ 2 .str
      [⟨m, q, mc, newp, d⟩] [] [] =
    .ok [make_str_report_one_query m q mc newp none]
  rw [make_reports_go, if_neg (by simp)]
  rw [hget]
  rfl

/-- Witness for C4 at a concrete database holding exactly one stored
result for the hash of sampleQuery on model m1. -/
theorem C4_fewer_records_raises_and_is_caught_witness :
    _weed_results [⟨"m1", sampleQuery, "pysb", [("h1", [])], 4⟩] 2 =
      .error "IndexError" ∧
    make_reports_from_results
      ⟨[], [⟨"m1", sampleQuery, 222398943⟩], [],
        [⟨222398943, "pysb", [("h1", [])], 4⟩]⟩
      [⟨"m1", sampleQuery, "pysb", [("h1", []), ("h2", [])], 9⟩] true .str =
      .ok [make_str_report_one_query "m1" sampleQuery "pysb"
        [("h1", []), ("h2", [])] none] :=
  C4_fewer_records_raises_and_is_caught [] [] sampleQuery "m1" "pysb"
    [("h1", [])] [("h1", []), ("h2", [])] 4 9 222398943 (by decide)

theorem add_user_core_preserved (db : DbState) (u : Int) (e : String) :
    (add_user db u e).queries = db.queries ∧
    (add_user db u e).user_queries = db.user_queries ∧
    (add_user db u e).results = db.results := by
  rw [add_user]
  split <;> exact ⟨rfl, rfl, rfl⟩

theorem ensure_user_core_preserved (db : DbState) (e : String)
    (uid : Option Int) :
    (ensure_user db e uid).queries = db.queries ∧
    (ensure_user db e uid).user_queries = db.user_queries ∧
    (ensure_user db e uid).results = db.results := by
  rw [ensure_user.eq_def]
  split
  · split
    · split
      · apply add_user_core_preserved
      · exact ⟨rfl, rfl, rfl⟩
    · exact ⟨rfl, rfl, rfl⟩
  · exact ⟨rfl, rfl, rfl⟩

theorem updateFirst_append_no_match {α : Type} (p : α → Bool) (f : α → α)
    (l1 l2 : List α) (h : ∀ x ∈ l1, p x = false) :
    updateFirst p f (l1 ++ l2) = l1 ++ updateFirst p f l2 := by
  induction l1 with
  | nil => rfl
  | cons x xs ih =>
      rw [List.cons_append, updateFirst, h x (by simp),
        ih (fun y hy => h y (by simp [hy]))]
      simp

theorem updateFirst_map_key {α κ : Type} (p : α → Bool) (f : α → α)
    (key : α → κ) (hf : ∀ x, key (f x) = key x) :
    ∀ l : List α, (updateFirst p f l).map key = l.map key := by
  intro l
  induction l with
  | nil => rfl
  | cons x xs ih =>
      rw [updateFirst]
      by_cases hp : p x
      · simp [hp, hf]
      · simp [hp, ih]

theorem put_queries_single_eval (db : DbState) (email : String) (i : Int)
    (q : Query) (m : String) (s : Bool) (h : Nat)
    (hemail : email ≠ "") (hi : i ≠ 0)
    (hq : get_hash_with_model q m = .ok h) :
    put_queries db email (some i) q (.list [m]) s =
      .ok { ensure_user db email (some i) with
        queries := db.queries ++
          (if h ∈ db.queries.map (fun r => r.hash) then []
           else [⟨m, q, h⟩]),
        user_queries :=
          (if h ∈ (db.user_queries.filter
                (fun r => r.user_id == some i)).map (fun r => r.query_hash)
           then
            updateFirst
              (fun r => r.user_id == some i && r.query_hash == h)
              (fun r =>
                let r2 := if s then update_subscription r s else r
                { r2 with count := r2.count + 1 })
              db.user_queries
           else db.user_queries) ++
          (if h ∈ (db.user_queries.filter
                (fun r => r.user_id == some i)).map (fun r => r.query_hash)
           then [] else [⟨some i, h, s, 1⟩]) } := by
  have h1 : (email == "") = false := by
    simp [hemail]
  have h2 : pyFalsyId (some i) = false := by
    simp [pyFalsyId, hi]
  rw [put_queries]
  rw [put_queries_on_collection]
  simp only [h1, h2, Bool.false_and, Bool.and_false, if_false,
    Bool.false_eq_true, put_queries_loop, hq, bind, Except.bind, pure,
    Except.pure, (ensure_user_core_preserved db email (some i)).1,
    (ensure_user_core_preserved db email (some i)).2.1]
  by_cases hm1 : h ∈ db.queries.map (fun r => r.hash)
  · by_cases hm2 : h ∈ (db.user_queries.filter
        (fun r => r.user_id == some i)).map (fun r => r.query_hash)
    · simp [hm1, hm2]
    · simp [hm1, hm2]
  · by_cases hm2 : h ∈ (db.user_queries.filter
        (fun r => r.user_id == some i)).map (fun r => r.query_hash)
    · simp [hm1, hm2]
    · simp [hm1, hm2]

theorem uq_match_false_of_not (r : UserQueryRow) (i : Int) (h : Nat)
    (hn : ¬(r.user_id = some i ∧ r.query_hash = h)) :
    (r.user_id == some i && r.query_hash == h) = false := by
  by_cases h1 : r.user_id = some i
  · by_cases h2 : r.query_hash = h
    · exact absurd ⟨h1, h2⟩ hn
    · simp [h2]
  · simp [h1]

theorem not_mem_euq (uqs : List UserQueryRow) (i : Int) (h : Nat)
    (hm : ∀ r ∈ uqs, ¬(r.user_id = some i ∧ r.query_hash = h)) :
    h ∉ (uqs.filter (fun r => r.user_id == some i)).map
      (fun r => r.query_hash) := by
  intro hmem
  simp only [List.mem_map, List.mem_filter] at hmem
  obtain ⟨r, ⟨hr, hu⟩, hh⟩ := hmem
  exact hm r hr ⟨by simpa using hu, hh⟩

theorem update_row_eval (i : Int) (h : Nat) (sub0 : Bool) (c : Nat) (s : Bool) :
    (fun r : UserQueryRow =>
      let r2 := if s then update_subscription r s else r
      { r2 with count := r2.count + 1 }) ⟨some i, h, sub0, c⟩ =
    ⟨some i, h, (if s then true else sub0), c + 1⟩ := by
  cases s <;> cases sub0 <;> simp [update_subscription]

theorem queries_filter_nil (l : List QueryRow) (m : String) (h : Nat)
    (hm : h ∉ l.map (fun r => r.hash)) :
    l.filter (fun r => r.model_id == m && r.hash == h) = [] := by
  rw [List.filter_eq_nil_iff]
  intro r hr
  have : r.hash ≠ h := fun he => hm (by
    simp only [List.mem_map]
    exact ⟨r, hr, he⟩)
  simp [this]

theorem uq_filter_nil (l : List UserQueryRow) (i : Int) (h : Nat)
    (hm : ∀ r ∈ l, ¬(r.user_id = some i ∧ r.query_hash = h)) :
    l.filter (fun r => r.user_id == some i && r.query_hash == h) = [] := by
  rw [List.filter_eq_nil_iff]
  intro r hr
  simp [uq_match_false_of_not r i h (hm r hr)]

/-- C5: two successive put_queries calls with the same (user, query,
model), starting from a state not containing that query, leave exactly
one query row for (model, hash) and exactly one user_query row for
(user, hash) with count 2; and when a user_query row already exists,
a call with subscribe = true sets the subscription flag to true while a
call with subscribe = false leaves the flag unchanged, with count
incremented in either case. -/
theorem C5_registration_idempotent_and_monotonic :
    (∀ (db : DbState) (email : String) (i : Int) (q : Query) (m : String)
        (s : Bool) (h : Nat),
      email ≠ "" → i ≠ 0 → get_hash_with_model q m = .ok h →
      h ∉ db.queries.map (fun r => r.hash) →
      (∀ r ∈ db.user_queries, ¬(r.user_id = some i ∧ r.query_hash = h)) →
      ∃ db1 db2,
        put_queries db email (some i) q (.list [m]) s = .ok db1 ∧
        put_queries db1 email (some i) q (.list [m]) s = .ok db2 ∧
        db2.queries.filter (fun r => r.model_id == m && r.hash == h) =
          [⟨m, q, h⟩] ∧
        db2.user_queries.filter
            (fun r => r.user_id == some i && r.query_hash == h) =
          [⟨some i, h, s, 2⟩]) ∧
    (∀ (db : DbState) (email : String) (i : Int) (q : Query) (m : String)
        (s : Bool) (h : Nat) (sub0 : Bool) (c : Nat)
        (pre post : List UserQueryRow),
      email ≠ "" → i ≠ 0 → get_hash_with_model q m = .ok h →
      db.user_queries = pre ++ ⟨some i, h, sub0, c⟩ :: post →
      (∀ r ∈ pre, ¬(r.user_id = some i ∧ r.query_hash = h)) →
      ∃ db2,
        put_queries db email (some i) q (.list [m]) s = .ok db2 ∧
        db2.user_queries =
          pre ++ ⟨some i, h, (if s then true else sub0), c + 1⟩ :: post) := by
  constructor
  · intro db email i q m s h he hi hq hm1 hm2
    have heuq := not_mem_euq db.user_queries i h hm2
    have e1 := put_queries_single_eval db email i q m s h he hi hq
    rw [if_neg hm1, if_neg heuq, if_neg heuq] at e1
    set db1 : DbState := { ensure_user db email (some i) with
      queries := db.queries ++ [⟨m, q, h⟩],
      user_queries := db.user_queries ++ [⟨some i, h, s, 1⟩] } with hdb1
    have hdq : db1.queries = db.queries ++ [⟨m, q, h⟩] := by rw [hdb1]
    have hdu : db1.user_queries = db.user_queries ++ [⟨some i, h, s, 1⟩] := by
      rw [hdb1]
    have hmem1 : h ∈ db1.queries.map (fun r => r.hash) := by
      rw [hdq]; simp
    have hmem2 : h ∈ (db1.user_queries.filter
        (fun r => r.user_id == some i)).map (fun r => r.query_hash) := by
      rw [hdu]
      simp [List.filter_append, List.mem_append]
    have e2 := put_queries_single_eval db1 email i q m s h he hi hq
    rw [if_pos hmem1, if_pos hmem2, if_pos hmem2] at e2
    have hupd : updateFirst
        (fun r => r.user_id == some i && r.query_hash == h)
        (fun r =>
          let r2 := if s then update_subscription r s else r
          { r2 with count := r2.count + 1 })
        db1.user_queries = db.user_queries ++ [⟨some i, h, s, 2⟩] := by
      rw [hdu]
      rw [updateFirst_append_no_match _ _ _ _
        (fun r hr => uq_match_false_of_not r i h (hm2 r hr))]
      congr 1
      rw [updateFirst, if_pos (by simp)]
      cases s <;> simp [update_subscription]
    rw [hupd] at e2
    refine ⟨db1, _, e1, e2, ?_, ?_⟩
    · simp only [hdq, List.append_nil, List.filter_append]
      rw [queries_filter_nil db.queries m h hm1]
      simp
    · simp only [List.append_nil, List.filter_append]
      rw [uq_filter_nil db.user_queries i h hm2]
      simp
  · intro db email i q m s h sub0 c pre post he hi hq huq hpre
    have hmem2 : h ∈ (db.user_queries.filter
        (fun r => r.user_id == some i)).map (fun r => r.query_hash) := by
      rw [huq]
      simp [List.filter_append, List.mem_append]
    have e1 := put_queries_single_eval db email i q m s h he hi hq
    rw [if_pos hmem2, if_pos hmem2] at e1
    refine ⟨_, e1, ?_⟩
    simp only [List.append_nil]
    rw [huq]
    rw [updateFirst_append_no_match _ _ _ _
      (fun r hr => uq_match_false_of_not r i h (hpre r hr))]
    congr 1
    rw [updateFirst, if_pos (by simp)]
    cases s <;> cases sub0 <;> simp [update_subscription]

/-- Witness for C5 at a concrete user, query and model on an empty
database. -/
theorem C5_registration_idempotent_and_monotonic_witness :
    (∃ db1 db2,
      put_queries ⟨[], [], [], []⟩ "u@x.org" (some 1) sampleQuery
          (.list ["m1"]) true = .ok db1 ∧
      put_queries db1 "u@x.org" (some 1) sampleQuery
          (.list ["m1"]) true = .ok db2 ∧
      db2.queries.filter
          (fun r => r.model_id == "m1" && r.hash == 222398943) =
        [⟨"m1", sampleQuery, 222398943⟩] ∧
      db2.user_queries.filter
          (fun r => r.user_id == some 1 && r.query_hash == 222398943) =
        [⟨some 1, 222398943, true, 2⟩]) ∧
    (∃ db2,
      put_queries ⟨[⟨1, "u@x.org"⟩], [⟨"m1", sampleQuery, 222398943⟩],
          [⟨some 1, 222398943, false, 3⟩], []⟩
        "u@x.org" (some 1) sampleQuery (.list ["m1"]) true = .ok db2 ∧
      db2.user_queries = [] ++ ⟨some 1, 222398943, true, 4⟩ :: []) :=
  ⟨C5_registration_idempotent_and_monotonic.1 ⟨[], [], [], []⟩ "u@x.org" 1
      sampleQuery "m1" true 222398943 (by decide) (by decide) (by decide)
      (by decide) (by decide),
   (by
    have := C5_registration_idempotent_and_monotonic.2
      ⟨[⟨1, "u@x.org"⟩], [⟨"m1", sampleQuery, 222398943⟩],
        [⟨some 1, 222398943, false, 3⟩], []⟩
      "u@x.org" 1 sampleQuery "m1" true 222398943 false 3 [] []
      (by decide) (by decide) (by decide) rfl (by decide)
    simpa using this)⟩

/-- C6 counterexample: a register call with an empty model id list is
not rejected; it returns successfully, storing no query and no
subscription rows (it records the previously unknown user), contrary to
the claim that an empty model id list raises an error and stores
nothing. -/
theorem C6_counterexample_empty_list_accepted :
    put_queries ⟨[], [], [], []⟩ "u@x.org" (some 1) sampleQuery
        (.list []) true =
      .ok ⟨[⟨1, "u@x.org"⟩], [], [], []⟩ := by decide

/-- C6 as amended: put_queries raises TypeError, before any write, only
when model_ids is neither a list nor a set; an empty model id list
passes the type check and the call succeeds writing no query, no
subscription and no result rows (it may still add a user row). -/
theorem C6_type_check_rejects_only_non_collections (db : DbState)
    (email : String) (uid : Option Int) (q : Query) (s : Bool) :
    put_queries db email uid q .other s = .error "TypeError" ∧
    ∃ db2, put_queries db email uid q (.list []) s = .ok db2 ∧
      db2.queries = db.queries ∧ db2.user_queries = db.user_queries ∧
      db2.results = db.results := by
  refine ⟨rfl, ?_⟩
  rw [put_queries, put_queries_on_collection]
  simp only [put_queries_loop, bind, Except.bind, pure, Except.pure]
  refine ⟨_, rfl, ?_, ?_, ?_⟩
  · simpa using (ensure_user_core_preserved db _ _).1
  · simpa using (ensure_user_core_preserved db _ _).2.1
  · simpa using (ensure_user_core_preserved db _ _).2.2

theorem except_bind_ok_iff {α β : Type} {e : Except String α}
    {f : α → Except String β} {b : β} :
    (e >>= f) = .ok b ↔ ∃ a, e = .ok a ∧ f a = .ok b := by
  cases e <;> simp [bind, Except.bind]

theorem qkey_not_mem (l : List QueryRow) (h : Nat)
    (hne : h ∉ l.map (fun r => r.hash)) :
    ∀ m2 : String, ((m2, h) : String × Nat) ∉
      l.map (fun r => (r.model_id, r.hash)) := by
  intro m2 hmem
  apply hne
  simp only [List.mem_map] at hmem ⊢
  obtain ⟨r, hr, hpair⟩ := hmem
  simp only [Prod.mk.injEq] at hpair
  exact ⟨r, hr, hpair.2⟩

theorem ukey_not_mem (uqs : List UserQueryRow) (uid : Option Int) (h : Nat)
    (hne : h ∉ (uqs.filter (fun r => r.user_id == uid)).map
      (fun r => r.query_hash)) :
    ((uid, h) : Option Int × Nat) ∉
      uqs.map (fun r => (r.user_id, r.query_hash)) := by
  intro hmem
  apply hne
  simp only [List.mem_map, List.mem_filter] at hmem ⊢
  obtain ⟨r, hr, hpair⟩ := hmem
  simp only [Prod.mk.injEq] at hpair
  exact ⟨r, ⟨hr, by simp [hpair.1]⟩, hpair.2⟩

theorem nodup_snoc_qkey (l : List QueryRow) (m : String) (q : Query) (h : Nat)
    (hn : (l.map (fun r => (r.model_id, r.hash))).Nodup)
    (hh : ∀ r ∈ l, r.hash ≠ h) :
    ((l ++ [(⟨m, q, h⟩ : QueryRow)]).map
      (fun r => (r.model_id, r.hash))).Nodup := by
  simp only [List.map_append, List.map_cons, List.map_nil]
  apply List.Nodup.append hn (by simp)
  intro a ha hb
  simp only [List.mem_singleton] at hb
  subst hb
  simp only [List.mem_map] at ha
  obtain ⟨r, hr, hkey⟩ := ha
  simp only [Prod.mk.injEq] at hkey
  exact hh r hr hkey.2

theorem nodup_snoc_uqhash (l : List UserQueryRow) (row : UserQueryRow)
    (hn : (l.map (fun r => r.query_hash)).Nodup)
    (hh : ∀ r ∈ l, r.query_hash ≠ row.query_hash) :
    ((l ++ [row]).map (fun r => r.query_hash)).Nodup := by
  simp only [List.map_append, List.map_cons, List.map_nil]
  apply List.Nodup.append hn (by simp)
  intro a ha hb
  simp only [List.mem_singleton] at hb
  subst hb
  simp only [List.mem_map] at ha
  obtain ⟨r, hr, hkey⟩ := ha
  exact hh r hr hkey

theorem put_queries_loop_inv (q : Query) (uid : Option Int) (s : Bool)
    (eh euq : List Nat) :
    ∀ (ms : List String) (hs : List Nat) (acc acc2 : PutAcc),
    exceptMapList (fun m => get_hash_with_model q m) ms = .ok hs →
    hs.Nodup →
    put_queries_loop q uid s eh euq ms acc = .ok acc2 →
    (acc.new_queries.map (fun r => (r.model_id, r.hash))).Nodup →
    (∀ r ∈ acc.new_queries, r.hash ∉ hs ∧ r.hash ∉ eh) →
    (acc.new_user_queries.map (fun r => r.query_hash)).Nodup →
    (∀ r ∈ acc.new_user_queries, r.query_hash ∉ hs ∧ r.query_hash ∉ euq ∧
      r.user_id = uid) →
    acc2.uq_table.map (fun r => (r.user_id, r.query_hash)) =
      acc.uq_table.map (fun r => (r.user_id, r.query_hash)) ∧
    (acc2.new_queries.map (fun r => (r.model_id, r.hash))).Nodup ∧
    (∀ r ∈ acc2.new_queries, r.hash ∉ eh) ∧
    (acc2.new_user_queries.map (fun r => r.query_hash)).Nodup ∧
    (∀ r ∈ acc2.new_user_queries, r.query_hash ∉ euq ∧ r.user_id = uid) := by
  intro ms
  induction ms with
  | nil =>
      intro hs acc acc2 hhs hnd hloop p1 p2 p3 p4
      rw [exceptMapList] at hhs
      injection hhs with hhs
      subst hhs
      rw [put_queries_loop] at hloop
      injection hloop with hloop
      subst hloop
      exact ⟨rfl, p1, fun r hr => (p2 r hr).2, p3,
        fun r hr => ⟨(p4 r hr).2.1, (p4 r hr).2.2⟩⟩
  | cons m rest ih =>
      intro hs acc acc2 hhs hnd hloop p1 p2 p3 p4
      rw [exceptMapList] at hhs
      rw [put_queries_loop] at hloop
      cases hhash : get_hash_with_model q m with
      | error e =>
          rw [hhash] at hhs
          simp [bind, Except.bind] at hhs
      | ok h =>
          rw [hhash] at hhs hloop
          simp only [bind, Except.bind] at hhs hloop
          cases hrest : exceptMapList (fun m2 => get_hash_with_model q m2)
              rest with
          | error e => rw [hrest] at hhs; simp at hhs
          | ok hs2 =>
              rw [hrest] at hhs
              simp only [pure, Except.pure, Except.ok.injEq] at hhs
              subst hhs
              have hnd2 : hs2.Nodup := (List.nodup_cons.mp hnd).2
              have hhns : h ∉ hs2 := (List.nodup_cons.mp hnd).1
              have hq1 : ∀ r ∈ acc.new_queries, r.hash ∉ hs2 ∧ r.hash ∉ eh :=
                fun r hr => ⟨fun hin => (p2 r hr).1 (by simp [hin]),
                  (p2 r hr).2⟩
              have hu1 : ∀ r ∈ acc.new_user_queries,
                  r.query_hash ∉ hs2 ∧ r.query_hash ∉ euq ∧ r.user_id = uid :=
                fun r hr => ⟨fun hin => (p4 r hr).1 (by simp [hin]),
                  (p4 r hr).2.1, (p4 r hr).2.2⟩
              have hq2 : ((acc.new_queries ++ [(⟨m, q, h⟩ : QueryRow)]).map
                  (fun r => (r.model_id, r.hash))).Nodup :=
                nodup_snoc_qkey acc.new_queries m q h p1
                  (fun r hr he => (p2 r hr).1 (by simp [he]))
              have hq2b : ∀ r ∈ acc.new_queries ++ [(⟨m, q, h⟩ : QueryRow)],
                  r.hash ∉ hs2 ∧ r.hash ∉ eh → True := fun _ _ _ => trivial
              by_cases hmq : h ∈ eh
              · by_cases hmu : h ∈ euq
                · simp only [if_pos hmq, if_pos hmu] at hloop
                  have hind := ih hs2
                    ⟨updateFirst
                        (fun r => r.user_id == uid && r.query_hash == h)
                        (fun r =>
                          let r2 := if s then update_subscription r s else r
                          { r2 with count := r2.count + 1 })
                        acc.uq_table,
                      acc.new_queries, acc.new_user_queries⟩
                    acc2 hrest hnd2 hloop p1 hq1 p3 hu1
                  refine ⟨?_, hind.2⟩
                  rw [hind.1]
                  exact updateFirst_map_key _ _ _
                    (fun x => by
                      cases hsx : s <;> cases hx : x.subscription <;>
                        simp [update_subscription, hsx, hx]) _
                · simp only [if_pos hmq, if_neg hmu] at hloop
                  exact ih hs2
                    ⟨acc.uq_table, acc.new_queries,
                      acc.new_user_queries ++ [⟨uid, h, s, 1⟩]⟩
                    acc2 hrest hnd2 hloop p1 hq1
                    (nodup_snoc_uqhash acc.new_user_queries ⟨uid, h, s, 1⟩ p3
                      (fun r hr he => (p4 r hr).1 (by simp [he])))
                    (by
                      intro r hr
                      simp only [List.mem_append, List.mem_singleton] at hr
                      rcases hr with hr | hr
                      · exact hu1 r hr
                      · subst hr
                        exact ⟨fun hin => hhns hin, hmu, rfl⟩)
              · by_cases hmu : h ∈ euq
                · simp only [if_neg hmq, if_pos hmu] at hloop
                  have hind := ih hs2
                    ⟨updateFirst
                        (fun r => r.user_id == uid && r.query_hash == h)
                        (fun r =>
                          let r2 := if s then update_subscription r s else r
                          { r2 with count := r2.count + 1 })
                        acc.uq_table,
                      acc.new_queries ++ [⟨m, q, h⟩], acc.new_user_queries⟩
                    acc2 hrest hnd2 hloop hq2
                    (by
                      intro r hr
                      simp only [List.mem_append, List.mem_singleton] at hr
                      rcases hr with hr | hr
                      · exact hq1 r hr
                      · subst hr
                        exact ⟨fun hin => hhns hin, hmq⟩)
                    p3 hu1
                  refine ⟨?_, hind.2⟩
                  rw [hind.1]
                  exact updateFirst_map_key _ _ _
                    (fun x => by
                      cases hsx : s <;> cases hx : x.subscription <;>
                        simp [update_subscription, hsx, hx]) _
                · simp only [if_neg hmq, if_neg hmu] at hloop
                  exact ih hs2
                    ⟨acc.uq_table, acc.new_queries ++ [⟨m, q, h⟩],
                      acc.new_user_queries ++ [⟨uid, h, s, 1⟩]⟩
                    acc2 hrest hnd2 hloop hq2
                    (by
                      intro r hr
                      simp only [List.mem_append, List.mem_singleton] at hr
                      rcases hr with hr | hr
                      · exact hq1 r hr
                      · subst hr
                        exact ⟨fun hin => hhns hin, hmq⟩)
                    (nodup_snoc_uqhash acc.new_user_queries ⟨uid, h, s, 1⟩ p3
                      (fun r hr he => (p4 r hr).1 (by simp [he])))
                    (by
                      intro r hr
                      simp only [List.mem_append, List.mem_singleton] at hr
                      rcases hr with hr | hr
                      · exact hu1 r hr
                      · subst hr
                        exact ⟨fun hin => hhns hin, hmu, rfl⟩)

theorem nodup_ukeys_of_nodup_hashes {l : List UserQueryRow}
    (hn : (l.map (fun r => r.query_hash)).Nodup) :
    (l.map (fun r => (r.user_id, r.query_hash))).Nodup := by
  induction l with
  | nil => simp
  | cons x xs ih =>
      simp only [List.map_cons, List.nodup_cons] at hn ⊢
      refine ⟨?_, ih hn.2⟩
      intro hmem
      apply hn.1
      simp only [List.mem_map] at hmem ⊢
      obtain ⟨r, hr, hp⟩ := hmem
      simp only [Prod.mk.injEq] at hp
      exact ⟨r, hr, hp.2⟩

/-- C8 counterexample: one register call whose model id list repeats the
same model id creates two query rows with the same (model_id, hash) and
two user_query rows with the same (user_id, query_hash), breaking the
uniqueness invariants the claim asserts for every call. -/
theorem C8_counterexample_duplicate_model_ids :
    put_queries ⟨[], [], [], []⟩ "u@x.org" (some 1) sampleQuery
        (.list ["m1", "m1"]) true =
      .ok ⟨[⟨1, "u@x.org"⟩],
        [⟨"m1", sampleQuery, 222398943⟩, ⟨"m1", sampleQuery, 222398943⟩],
        [⟨some 1, 222398943, true, 1⟩, ⟨some 1, 222398943, true, 1⟩], []⟩ ∧
    ¬ (([⟨"m1", sampleQuery, 222398943⟩, ⟨"m1", sampleQuery, 222398943⟩] :
        List QueryRow).map (fun r => (r.model_id, r.hash))).Nodup ∧
    ¬ (([⟨some 1, 222398943, true, 1⟩, ⟨some 1, 222398943, true, 1⟩] :
        List UserQueryRow).map
        (fun r => (r.user_id, r.query_hash))).Nodup := by
  refine ⟨by decide, by decide, by decide⟩

/-- C8 as amended: a register call preserves the uniqueness invariants
(at most one query row per (model_id, hash), at most one user_query row
per (user_id, query_hash)) provided the hashes computed for the model
ids of the call are pairwise distinct; a duplicated model id (or a hash
collision between two model ids in the same call) creates duplicate
rows. -/
theorem C8_uniqueness_preserved_for_distinct_hashes
    (db : DbState) (email : String) (uid : Option Int) (q : Query)
    (ms : List String) (s : Bool) (hs : List Nat) (db2 : DbState)
    (hhs : exceptMapList (fun m => get_hash_with_model q m) ms = .ok hs)
    (hnd : hs.Nodup)
    (hq : (db.queries.map (fun r => (r.model_id, r.hash))).Nodup)
    (hu : (db.user_queries.map (fun r => (r.user_id, r.query_hash))).Nodup)
    (hok : put_queries db email uid q (.list ms) s = .ok db2) :
    (db2.queries.map (fun r => (r.model_id, r.hash))).Nodup ∧
    (db2.user_queries.map (fun r => (r.user_id, r.query_hash))).Nodup := by
  rw [put_queries, put_queries_on_collection] at hok
  simp only [except_bind_ok_iff] at hok
  obtain ⟨acc2, hloop, hpure⟩ := hok
  simp only [pure, Except.pure, Except.ok.injEq] at hpure
  subst hpure
  have H := put_queries_loop_inv q _ s _ _ ms hs _ acc2 hhs hnd hloop
    (by simp) (by simp) (by simp) (by simp)
  constructor
  · simp only [List.map_append]
    apply List.Nodup.append
    · rw [(ensure_user_core_preserved db _ _).1]
      exact hq
    · exact H.2.1
    · intro a ha hb
      rw [(ensure_user_core_preserved db _ _).1] at ha
      simp only [List.mem_map] at hb
      obtain ⟨r, hr, hkey⟩ := hb
      have hne := (H.2.2.1 r hr)
      subst hkey
      exact qkey_not_mem db.queries r.hash hne r.model_id ha
  · simp only [List.map_append]
    apply List.Nodup.append
    · rw [H.1]
      simp only []
      rw [(ensure_user_core_preserved db _ _).2.1]
      exact hu
    · exact nodup_ukeys_of_nodup_hashes H.2.2.2.1
    · intro a ha hb
      rw [H.1] at ha
      simp only [] at ha
      rw [(ensure_user_core_preserved db _ _).2.1] at ha
      simp only [List.mem_map] at hb
      obtain ⟨r, hr, hkey⟩ := hb
      obtain ⟨hne, huid⟩ := H.2.2.2.2 r hr
      subst hkey
      rw [huid] at ha
      exact ukey_not_mem db.user_queries _ r.query_hash hne ha

/-- Witness for C8 at a single-model call on the empty database. -/
theorem C8_uniqueness_preserved_for_distinct_hashes_witness :
    (([⟨"m1", sampleQuery, 222398943⟩] : List QueryRow).map
        (fun r => (r.model_id, r.hash))).Nodup ∧
    (([⟨some 1, 222398943, true, 1⟩] : List UserQueryRow).map
        (fun r => (r.user_id, r.query_hash))).Nodup :=
  C8_uniqueness_preserved_for_distinct_hashes ⟨[], [], [], []⟩ "u@x.org"
    (some 1) sampleQuery ["m1"] true [222398943]
    ⟨[⟨1, "u@x.org"⟩], [⟨"m1", sampleQuery, 222398943⟩],
      [⟨some 1, 222398943, true, 1⟩], []⟩
    (by decide) (by decide) (by decide) (by decide) (by decide)

/-- src/emmaa/answer_queries.py: the process-wide model_manager_cache
dict, mapping a model name to its loaded model manager, modelled as an
association list in insertion order over an arbitrary handle type. -/
abbrev ModelManagerCache (H : Type) := List (String × H)

/-- Python dict .get: the value stored under a key, if any. -/
def dictGet {H : Type} (cache : ModelManagerCache H) (k : String) :
    Option H :=
  (cache.find? (fun kv => kv.1 == k)).map (fun kv => kv.2)

/-- Python dict assignment cache[k] = v: overwrite the stored value, or
append the new key. -/
def dictSet {H : Type} (cache : ModelManagerCache H) (k : String) (v : H) :
    ModelManagerCache H :=
  if cache.any (fun kv => kv.1 == k) then
    cache.map (fun kv => if kv.1 == k then (kv.1, v) else kv)
  else cache ++ [(k, v)]

/-- The observable outcome of load_model_manager_from_s3: the returned
manager, the cache afterwards, and whether the remote store was
contacted. -/
structure LoadResult (H : Type) where
  manager : H
  cache : ModelManagerCache H
  fetched : Bool
deriving DecidableEq

/-- src/emmaa/answer_queries.py, load_model_manager_from_s3: return the
cached manager when one is stored (model manager objects are truthy
Python objects, so the `if model_manager` check is their presence);
otherwise fetch results/<model>/latest_model_manager.pkl from the emmaa
bucket (modelled by the map s3 from keys to already deserialized
handles; a missing artifact raises, modelled as an error), store the
handle in the cache and return it. -/
def load_model_manager_from_s3 {H : Type} (cache : ModelManagerCache H)
    (s3 : String → Option H) (model_name : String) :
    Except String (LoadResult H) :=
  match dictGet cache model_name with
  | some model_manager => .ok ⟨model_manager, cache, false⟩
  | none =>
      match s3 ("results/" ++ model_name ++ "/latest_model_manager.pkl") with
      | some model_manager =>
          .ok ⟨model_manager, dictSet cache model_name model_manager, true⟩
      | none => .error "ClientError"

theorem dictGet_overwrite {H : Type} (k : String) (v : H) :
    ∀ cache : ModelManagerCache H,
      cache.any (fun kv => kv.1 == k) = true →
      dictGet (cache.map (fun kv => if kv.1 == k then (kv.1, v) else kv)) k =
        some v := by
  intro cache
  induction cache with
  | nil => intro h; simp at h
  | cons x xs ih =>
      intro hany
      by_cases hx : x.1 = k
      · simp [dictGet, List.find?, hx]
      · have hany2 : xs.any (fun kv => kv.1 == k) = true := by
          simp only [List.any_cons, Bool.or_eq_true] at hany
          rcases hany with h | h
          · exact absurd (by simpa using h) hx
          · exact h
        simp only [List.map_cons, if_neg (by simpa using hx : ¬ (x.1 == k) = true)]
        rw [dictGet]
        simp only [List.find?, show (x.1 == k) = false by simpa using hx]
        have := ih hany2
        rw [dictGet] at this
        exact this

theorem dictGet_append_new {H : Type} (k : String) (v : H) :
    ∀ cache : ModelManagerCache H,
      cache.any (fun kv => kv.1 == k) = false →
      dictGet (cache ++ [(k, v)]) k = some v := by
  intro cache
  induction cache with
  | nil => intro h2; simp [dictGet, List.find?]
  | cons x xs ih =>
      intro hany
      simp only [List.any_cons, Bool.or_eq_false_iff] at hany
      rw [List.cons_append, dictGet]
      simp only [List.find?, hany.1]
      have := ih hany.2
      rw [dictGet] at this
      exact this

theorem dictGet_dictSet {H : Type} (cache : ModelManagerCache H)
    (k : String) (v : H) : dictGet (dictSet cache k v) k = some v := by
  rw [dictSet]
  by_cases hany : cache.any (fun kv => kv.1 == k) = true
  · rw [if_pos hany]
    exact dictGet_overwrite k v cache hany
  · rw [if_neg hany]
    exact dictGet_append_new k v cache (by
      rw [← Bool.not_eq_true]
      exact hany)

/-- C9: once a load for a model has completed and populated the cache,
every later load_model_manager_from_s3 for the same model returns the
same held handle immediately, leaves the cache unchanged and does not
contact the remote store; in particular a handle already present in the
cache is returned without a fetch. -/
theorem C9_cache_hit_returns_same_handle_without_fetch {H : Type}
    (cache : ModelManagerCache H) (s3 : String → Option H)
    (model_name : String) :
    (∀ h : H, dictGet cache model_name = some h →
      load_model_manager_from_s3 cache s3 model_name = .ok ⟨h, cache, false⟩) ∧
    (∀ res : LoadResult H,
      load_model_manager_from_s3 cache s3 model_name = .ok res →
      load_model_manager_from_s3 res.cache s3 model_name =
        .ok ⟨res.manager, res.cache, false⟩) := by
  constructor
  · intro h hh
    rw [load_model_manager_from_s3, hh]
  · intro res hres
    rw [load_model_manager_from_s3] at hres
    cases hget : dictGet cache model_name with
    | some h =>
        rw [hget] at hres
        injection hres with hres
        subst hres
        rw [load_model_manager_from_s3, hget]
    | none =>
        rw [hget] at hres
        cases hs3 : s3 ("results/" ++ model_name ++
            "/latest_model_manager.pkl") with
        | some h =>
            rw [hs3] at hres
            injection hres with hres
            subst hres
            rw [load_model_manager_from_s3]
            rw [dictGet_dictSet]
        | none => rw [hs3] at hres; exact absurd hres (by simp)

/-- Witness for C9 with Nat handles: a cold load fetches handle 7, and
the immediately following load returns the same handle from the cache
without a second fetch. -/
theorem C9_cache_hit_returns_same_handle_without_fetch_witness :
    load_model_manager_from_s3 [("m1", (7 : Nat))]
        (fun k => if k == "results/m1/latest_model_manager.pkl"
          then some 7 else none) "m1" =
      .ok ⟨7, [("m1", 7)], false⟩ ∧
    load_model_manager_from_s3 [("m1", (7 : Nat))]
        (fun k => if k == "results/m1/latest_model_manager.pkl"
          then some 7 else none) "m1" =
      .ok ⟨(⟨7, [("m1", 7)], true⟩ : LoadResult Nat).manager,
        (⟨7, [("m1", 7)], true⟩ : LoadResult Nat).cache, false⟩ :=
  ⟨(C9_cache_hit_returns_same_handle_without_fetch [("m1", 7)]
      (fun k => if k == "results/m1/latest_model_manager.pkl"
        then some 7 else none) "m1").1 7 (by decide),
   (C9_cache_hit_returns_same_handle_without_fetch []
      (fun k => if k == "results/m1/latest_model_manager.pkl"
        then some 7 else none) "m1").2 ⟨7, [("m1", 7)], true⟩ (by decide)⟩

/-- Modelled from the spec: emmaa.util.make_date_str (emmaa/util.py is
not under src/) renders a result timestamp as a string for display. -/
def make_date_str (d : Nat) : String := toString d

/-- The simple dictionary produced by _make_query_simple_dict for the
dashboard. -/
structure SimpleQueryDict where
  typeSelection : String
  subjectSelection : String
  objectSelection : String
deriving DecidableEq

/-- src/emmaa/answer_queries.py, _make_query_simple_dict: the statement
type name and the subject and object names of the query path statement. -/
def _make_query_simple_dict (query : Query) : SimpleQueryDict :=
  ⟨query.path_stmt.typeName, query.path_stmt.subjName,
    query.path_stmt.objName⟩

/-- One entry of the standard json structure produced by format_results. -/
structure FormattedResult where
  model : String
  query : SimpleQueryDict
  mc_type : String
  response : String
  date : String
deriving DecidableEq

/-- src/emmaa/answer_queries.py, format_results: format db output to a
standard json structure; each response is rendered with
_process_result_to_html, whose exception propagates and loses the whole
formatted answer set. -/
def format_results (results : List ResultTuple) :
    Except String (List FormattedResult) :=
  exceptMapList (fun result => do
      let response ← _process_result_to_html result.result_json
      pure (⟨result.model_id, _make_query_simple_dict result.query,
        result.mc_type, response, make_date_str result.date⟩ :
        FormattedResult))
    results

theorem html_error_msg (p : Payload) (e : String)
    (he : _process_result_to_html p = .error e) : e = "UnboundLocalError" := by
  rw [_process_result_to_html] at he
  split at he
  · exact absurd he (by simp)
  · injection he with he
    exact he.symm

theorem html_fold_ok (l : Payload) :
    ∀ (rl : List String) (s0 : String),
      ∃ s, (l.foldl (fun (st : List String × Option String) kv =>
        ((st.1 ++ htmlPieces kv.2),
          some (String.join (st.1 ++ htmlPieces kv.2)))) (rl, some s0)).2
        = some s := by
  induction l with
  | nil => intro rl s0; exact ⟨s0, rfl⟩
  | cons kv rest ih =>
      intro rl s0
      simp only [List.foldl_cons]
      exact ih _ _

theorem html_cons_ok (kv : String × Evidence) (rest : Payload) :
    ∃ s, _process_result_to_html (kv :: rest) = .ok s := by
  rw [_process_result_to_html]
  simp only [List.foldl_cons]
  obtain ⟨s, hs⟩ := html_fold_ok rest ([] ++ htmlPieces kv.2)
    (String.join ([] ++ htmlPieces kv.2))
  rw [hs]
  exact ⟨s, rfl⟩

theorem format_results_error_of_empty :
    ∀ results : List ResultTuple, (∃ r ∈ results, r.result_json = []) →
      format_results results = .error "UnboundLocalError" := by
  intro results
  induction results with
  | nil =>
      intro hex
      obtain ⟨r, hr, _⟩ := hex
      simp at hr
  | cons x xs ih =>
      intro hex
      rw [format_results, exceptMapList]
      cases hx : _process_result_to_html x.result_json with
      | error e =>
          have he := html_error_msg x.result_json e hx
          subst he
          simp [bind, Except.bind, hx]
      | ok s =>
          obtain ⟨r, hr, hre⟩ := hex
          rcases List.mem_cons.mp hr with hr1 | hr2
          · subst hr1
            rw [hre] at hx
            rw [show _process_result_to_html ([] : Payload) =
              .error "UnboundLocalError" from rfl] at hx
            exact Except.noConfusion hx
          · have hrec := ih ⟨r, hr2, hre⟩
            rw [format_results] at hrec
            simp only [hrec]
            simp [bind, Except.bind, hx, pure, Except.pure]

theorem format_results_ok_of_nonempty :
    ∀ results : List ResultTuple, (∀ r ∈ results, r.result_json ≠ []) →
      (format_results results).isOk = true := by
  intro results
  induction results with
  | nil => intro hall; rfl
  | cons x xs ih =>
      intro hall
      rw [format_results, exceptMapList]
      have hx : ∃ s, _process_result_to_html x.result_json = .ok s := by
        cases hxr : x.result_json with
        | nil => exact absurd hxr (hall x (by simp))
        | cons kv rest => exact html_cons_ok kv rest
      obtain ⟨s, hs⟩ := hx
      have hxs := ih (fun r hr => hall r (by simp [hr]))
      cases hrec : format_results xs with
      | error e =>
          rw [hrec] at hxs
          simp [Except.isOk, Except.toBool] at hxs
      | ok ys =>
          rw [format_results] at hrec
          simp only [hrec]
          simp [bind, Except.bind, hs, pure, Except.pure, Except.isOk,
            Except.toBool]

/-- C10: the html payload renderer raises on an empty payload mapping
(its response accumulator is only assigned inside the loop over payload
values), so format_results fails, losing the whole formatted answer set,
exactly when some result payload is empty; it succeeds whenever every
payload holds at least one answer key. -/
theorem C10_formatting_total_only_for_nonempty_payloads
    (results : List ResultTuple) :
    _process_result_to_html ([] : Payload) = .error "UnboundLocalError" ∧
    ((∃ r ∈ results, r.result_json = []) →
      format_results results = .error "UnboundLocalError") ∧
    ((∀ r ∈ results, r.result_json ≠ []) →
      (format_results results).isOk = true) :=
  ⟨rfl, format_results_error_of_empty results,
    format_results_ok_of_nonempty results⟩

/-- Witness for C10 at concrete result lists: a list containing an
empty payload loses the whole formatted set; a list of nonempty
payloads formats successfully. -/
theorem C10_formatting_total_only_for_nonempty_payloads_witness :
    format_results [⟨"m1", sampleQuery, "pysb", [], 3⟩] =
      .error "UnboundLocalError" ∧
    (format_results [⟨"m1", sampleQuery, "pysb",
      [("h1", [("a sentence", "")])], 3⟩]).isOk = true :=
  ⟨(C10_formatting_total_only_for_nonempty_payloads
      [⟨"m1", sampleQuery, "pysb", [], 3⟩]).2.1 (by decide),
   (C10_formatting_total_only_for_nonempty_payloads
      [⟨"m1", sampleQuery, "pysb", [("h1", [("a sentence", "")])], 3⟩]).2.2
      (by decide)⟩
